import Mathlib

/-!
# govet: the analyzers of `checks/`

A shallow embedding of the analyzers of `github.com/ruilisi/govet`.

* The syntax trees of `go/ast` are embedded as the mutual inductive types
  `Expr`, `Stmt`, ... below.  Source positions and comment groups are left out
  (the visitors of this repository return their receiver unchanged on comment
  nodes), except for the position of the `func` keyword, which is where the
  session checker reports.
* `ast.Walk` is embedded as `Walk`: a visitor is a function from a state and a
  node (`none` is Go's `nil` node) to a new state and the answer whether the walk
  descends (`true`: `Visit` returned the visitor, `false`: it returned `nil`).
* A run-time panic (index out of range, nil dereference) is an `Except.error`.
* Library functions that the code calls and that are not part of the repository
  (`strings.EqualFold`, the printer behind `formatNode`) are parameters.
-/

namespace Govet

/-! ## Syntax trees (`go/ast`) -/

/-- Run-time panics of the Go program. -/
inductive Panic where
  | indexOutOfRange
  | nilPointerDereference
deriving DecidableEq, Repr

/-- An `*ast.Ident`. -/
structure Ident where
  Name : String
deriving DecidableEq, Repr

/-- An `*ast.BasicLit`: `Kind` is the token kind (`INT`, `STRING`, ...). -/
structure BasicLit where
  Kind : String
  Value : String
deriving DecidableEq, Repr

mutual
/-- An `ast.Expr`. Fields documented as "or nil" in `go/ast` are options. -/
inductive Expr where
  | BadExpr
  | Ident (id : Ident)
  | Ellipsis (Elt : Option Expr)
  | BasicLit (lit : BasicLit)
  | FuncLit (Typ : FuncType) (Body : BlockStmt)
  | CompositeLit (Typ : Option Expr) (Elts : List Expr)
  | ParenExpr (X : Expr)
  | SelectorExpr (X : Expr) (Sel : Ident)
  | IndexExpr (X : Expr) (Index : Expr)
  | IndexListExpr (X : Expr) (Indices : List Expr)
  | SliceExpr (X : Expr) (Low : Option Expr) (High : Option Expr) (Max : Option Expr) (Slice3 : Bool)
  | TypeAssertExpr (X : Expr) (Typ : Option Expr)
  | CallExpr (call : CallExpr)
  | StarExpr (X : Expr)
  | UnaryExpr (Op : String) (X : Expr)
  | BinaryExpr (X : Expr) (Op : String) (Y : Expr)
  | KeyValueExpr (Key : Expr) (Value : Expr)
  | ArrayType (Len : Option Expr) (Elt : Expr)
  | StructType (Fields : FieldList)
  | FuncType (typ : FuncType)
  | InterfaceType (Methods : FieldList)
  | MapType (Key : Expr) (Value : Expr)
  | ChanType (Dir : Nat) (Value : Expr)
/-- An `*ast.CallExpr`. -/
inductive CallExpr where
  | mk (Fun : Expr) (Args : List Expr)
/-- An `*ast.FuncType`; `Func` is the position of the `func` keyword. -/
inductive FuncType where
  | mk (Func : Nat) (TypeParams : Option FieldList) (Params : FieldList) (Results : Option FieldList)
/-- An `*ast.FieldList`. -/
inductive FieldList where
  | mk (list : List Field)
/-- An `*ast.Field`. -/
inductive Field where
  | mk (Names : List Ident) (Typ : Option Expr) (Tag : Option BasicLit)
/-- An `*ast.BlockStmt`. -/
inductive BlockStmt where
  | mk (list : List Stmt)
/-- An `ast.Stmt`. -/
inductive Stmt where
  | BadStmt
  | DeclStmt (Decl : GenDecl)
  | EmptyStmt
  | LabeledStmt (Label : Ident) (Stmt : Stmt)
  | ExprStmt (X : Expr)
  | SendStmt (Chan : Expr) (Value : Expr)
  | IncDecStmt (X : Expr) (Tok : String)
  | AssignStmt (Lhs : List Expr) (Tok : String) (Rhs : List Expr)
  | GoStmt (Call : CallExpr)
  | DeferStmt (Call : CallExpr)
  | ReturnStmt (Results : List Expr)
  | BranchStmt (Tok : String) (Label : Option Ident)
  | BlockStmt (block : BlockStmt)
  | IfStmt (Init : Option Stmt) (Cond : Expr) (Body : BlockStmt) (Else : Option Stmt)
  | CaseClause (list : List Expr) (Body : List Stmt)
  | SwitchStmt (Init : Option Stmt) (Tag : Option Expr) (Body : BlockStmt)
  | TypeSwitchStmt (Init : Option Stmt) (Assign : Stmt) (Body : BlockStmt)
  | CommClause (Comm : Option Stmt) (Body : List Stmt)
  | SelectStmt (Body : BlockStmt)
  | ForStmt (Init : Option Stmt) (Cond : Option Expr) (Post : Option Stmt) (Body : BlockStmt)
  | RangeStmt (Key : Option Expr) (Value : Option Expr) (Tok : String) (X : Expr) (Body : BlockStmt)
/-- An `ast.Spec`. -/
inductive Spec where
  | ImportSpec (Name : Option Ident) (Path : BasicLit)
  | ValueSpec (Names : List Ident) (Typ : Option Expr) (Values : List Expr)
  | TypeSpec (Name : Ident) (TypeParams : Option FieldList) (Typ : Expr)
/-- An `*ast.GenDecl`. -/
inductive GenDecl where
  | mk (Tok : String) (Specs : List Spec)
end

/-- An `*ast.FuncDecl`; `Body` is `none` for a declaration without a body. -/
structure FuncDecl where
  Recv : Option FieldList
  Name : Ident
  Typ : FuncType
  Body : Option BlockStmt

/-- An `ast.Decl`. -/
inductive Decl where
  | BadDecl
  | GenDecl (decl : GenDecl)
  | FuncDecl (decl : FuncDecl)

/-- An `*ast.CommentGroup`, kept as the text that `CommentGroup.Text` returns. -/
structure CommentGroup where
  Text : String

/-- An `*ast.File`; `Imports` holds the `Path` of each import of the file. -/
structure File where
  Name : Ident
  Decls : List Decl
  Imports : List BasicLit
  Comments : List CommentGroup

/-- An `ast.Node` that is not `nil`. `nilBlockStmt` is the interface value that
holds a nil `*ast.BlockStmt`: it is what `fnDecl.Body` converts to when the
declaration has no body. -/
inductive Node where
  | expr (e : Expr)
  | stmt (s : Stmt)
  | field (f : Field)
  | fieldList (l : FieldList)
  | spec (s : Spec)
  | decl (d : Decl)
  | file (f : File)
  | nilBlockStmt

def CallExpr.Fun : CallExpr → Expr
  | .mk f _ => f

def CallExpr.Args : CallExpr → List Expr
  | .mk _ a => a

def FieldList.list : FieldList → List Field
  | .mk l => l

def Field.Names : Field → List Ident
  | .mk n _ _ => n

def Field.Typ : Field → Option Expr
  | .mk _ t _ => t

def BlockStmt.list : BlockStmt → List Stmt
  | .mk l => l

def FuncType.Func : FuncType → Nat
  | .mk p _ _ _ => p

def FuncType.Results : FuncType → Option FieldList
  | .mk _ _ _ r => r

/-- The method `FuncDecl.Pos`: the position of the `func` keyword. -/
def FuncDecl.Pos (d : FuncDecl) : Nat := d.Typ.Func

/-! ## Sizes (the fuel of the walk) -/

mutual
def Expr.size : Expr → Nat
  | .BadExpr => 1
  | .Ident _ => 1
  | .Ellipsis e => sizeOptExpr e + 1
  | .BasicLit _ => 1
  | .FuncLit t b => t.size + b.size + 3
  | .CompositeLit t es => sizeOptExpr t + sizeExprs es + 1
  | .ParenExpr x => x.size + 1
  | .SelectorExpr x _ => x.size + 2
  | .IndexExpr x i => x.size + i.size + 1
  | .IndexListExpr x is => x.size + sizeExprs is + 1
  | .SliceExpr x l h m _ => x.size + sizeOptExpr l + sizeOptExpr h + sizeOptExpr m + 1
  | .TypeAssertExpr x t => x.size + sizeOptExpr t + 1
  | .CallExpr c => c.size + 1
  | .StarExpr x => x.size + 1
  | .UnaryExpr _ x => x.size + 1
  | .BinaryExpr x _ y => x.size + y.size + 1
  | .KeyValueExpr k v => k.size + v.size + 1
  | .ArrayType l e => sizeOptExpr l + e.size + 1
  | .StructType f => f.size + 1
  | .FuncType t => t.size + 1
  | .InterfaceType f => f.size + 1
  | .MapType k v => k.size + v.size + 1
  | .ChanType _ v => v.size + 1
def CallExpr.size : CallExpr → Nat
  | .mk f args => f.size + sizeExprs args + 1
def FuncType.size : FuncType → Nat
  | .mk _ tp p r => sizeOptFieldList tp + p.size + sizeOptFieldList r + 1
def FieldList.size : FieldList → Nat
  | .mk l => sizeFields l + 1
def Field.size : Field → Nat
  | .mk ns t _ => ns.length + sizeOptExpr t + 2
def BlockStmt.size : BlockStmt → Nat
  | .mk l => sizeStmts l + 1
def Stmt.size : Stmt → Nat
  | .BadStmt => 1
  | .DeclStmt d => d.size + 2
  | .EmptyStmt => 1
  | .LabeledStmt _ s => s.size + 2
  | .ExprStmt x => x.size + 1
  | .SendStmt c v => c.size + v.size + 1
  | .IncDecStmt x _ => x.size + 1
  | .AssignStmt l _ r => sizeExprs l + sizeExprs r + 1
  | .GoStmt c => c.size + 2
  | .DeferStmt c => c.size + 2
  | .ReturnStmt rs => sizeExprs rs + 1
  | .BranchStmt _ _ => 2
  | .BlockStmt b => b.size + 1
  | .IfStmt i c b e => sizeOptStmt i + c.size + b.size + sizeOptStmt e + 2
  | .CaseClause l b => sizeExprs l + sizeStmts b + 1
  | .SwitchStmt i t b => sizeOptStmt i + sizeOptExpr t + b.size + 2
  | .TypeSwitchStmt i a b => sizeOptStmt i + a.size + b.size + 2
  | .CommClause c b => sizeOptStmt c + sizeStmts b + 1
  | .SelectStmt b => b.size + 2
  | .ForStmt i c p b => sizeOptStmt i + sizeOptExpr c + sizeOptStmt p + b.size + 2
  | .RangeStmt k v _ x b => sizeOptExpr k + sizeOptExpr v + x.size + b.size + 2
def Spec.size : Spec → Nat
  | .ImportSpec _ _ => 3
  | .ValueSpec ns t vs => ns.length + sizeOptExpr t + sizeExprs vs + 1
  | .TypeSpec _ tp t => sizeOptFieldList tp + t.size + 3
def GenDecl.size : GenDecl → Nat
  | .mk _ specs => sizeSpecs specs + 1
def sizeExprs : List Expr → Nat
  | [] => 0
  | e :: es => e.size + sizeExprs es
def sizeStmts : List Stmt → Nat
  | [] => 0
  | s :: ss => s.size + sizeStmts ss
def sizeFields : List Field → Nat
  | [] => 0
  | f :: fs => f.size + sizeFields fs
def sizeSpecs : List Spec → Nat
  | [] => 0
  | s :: ss => s.size + sizeSpecs ss
def sizeOptExpr : Option Expr → Nat
  | none => 0
  | some e => e.size
def sizeOptStmt : Option Stmt → Nat
  | none => 0
  | some s => s.size
def sizeOptFieldList : Option FieldList → Nat
  | none => 0
  | some l => l.size
end

def FuncDecl.size (d : FuncDecl) : Nat :=
  sizeOptFieldList d.Recv + d.Typ.size + (match d.Body with | none => 0 | some b => b.size) + 5

def Decl.size : Decl → Nat
  | .BadDecl => 1
  | .GenDecl d => d.size + 1
  | .FuncDecl d => d.size

def sizeDecls : List Decl → Nat
  | [] => 0
  | d :: ds => d.size + sizeDecls ds

def File.size (f : File) : Nat := sizeDecls f.Decls + 2

/-- An upper bound of the number of nodes of the tree below a node. -/
def Node.size : Node → Nat
  | .expr e => e.size
  | .stmt s => s.size
  | .field f => f.size
  | .fieldList l => l.size
  | .spec s => s.size
  | .decl d => d.size
  | .file f => f.size
  | .nilBlockStmt => 1

/-! ## `ast.Walk` -/

def identNode (id : Ident) : Node := .expr (.Ident id)

def optExprNodes : Option Expr → List Node
  | none => []
  | some e => [.expr e]

def optStmtNodes : Option Stmt → List Node
  | none => []
  | some s => [.stmt s]

def optFieldListNodes : Option FieldList → List Node
  | none => []
  | some l => [.fieldList l]

def optIdentNodes : Option Ident → List Node
  | none => []
  | some id => [identNode id]

def optBasicLitNodes : Option BasicLit → List Node
  | none => []
  | some lit => [.expr (.BasicLit lit)]

def optBlockStmtNodes : Option BlockStmt → List Node
  | none => []
  | some b => [.stmt (.BlockStmt b)]

/-- The nodes that `ast.Walk` walks below an expression, in its order. -/
def Expr.children : Expr → List Node
  | .BadExpr => []
  | .Ident _ => []
  | .BasicLit _ => []
  | .Ellipsis elt => optExprNodes elt
  | .FuncLit t b => [.expr (.FuncType t), .stmt (.BlockStmt b)]
  | .CompositeLit t elts => optExprNodes t ++ elts.map Node.expr
  | .ParenExpr x => [.expr x]
  | .SelectorExpr x sel => [.expr x, identNode sel]
  | .IndexExpr x i => [.expr x, .expr i]
  | .IndexListExpr x is => .expr x :: is.map Node.expr
  | .SliceExpr x l h m _ => .expr x :: (optExprNodes l ++ optExprNodes h ++ optExprNodes m)
  | .TypeAssertExpr x t => .expr x :: optExprNodes t
  | .CallExpr c => .expr c.Fun :: c.Args.map Node.expr
  | .StarExpr x => [.expr x]
  | .UnaryExpr _ x => [.expr x]
  | .BinaryExpr x _ y => [.expr x, .expr y]
  | .KeyValueExpr k v => [.expr k, .expr v]
  | .ArrayType l e => optExprNodes l ++ [.expr e]
  | .StructType f => [.fieldList f]
  | .FuncType (.mk _ tp p r) => optFieldListNodes tp ++ [.fieldList p] ++ optFieldListNodes r
  | .InterfaceType f => [.fieldList f]
  | .MapType k v => [.expr k, .expr v]
  | .ChanType _ v => [.expr v]

/-- The nodes that `ast.Walk` walks below a statement, in its order. -/
def Stmt.children : Stmt → List Node
  | .BadStmt => []
  | .DeclStmt d => [.decl (.GenDecl d)]
  | .EmptyStmt => []
  | .LabeledStmt l s => [identNode l, .stmt s]
  | .ExprStmt x => [.expr x]
  | .SendStmt c v => [.expr c, .expr v]
  | .IncDecStmt x _ => [.expr x]
  | .AssignStmt l _ r => l.map Node.expr ++ r.map Node.expr
  | .GoStmt c => [.expr (.CallExpr c)]
  | .DeferStmt c => [.expr (.CallExpr c)]
  | .ReturnStmt rs => rs.map Node.expr
  | .BranchStmt _ l => optIdentNodes l
  | .BlockStmt b => b.list.map Node.stmt
  | .IfStmt i c b e => optStmtNodes i ++ [.expr c, .stmt (.BlockStmt b)] ++ optStmtNodes e
  | .CaseClause l b => l.map Node.expr ++ b.map Node.stmt
  | .SwitchStmt i t b => optStmtNodes i ++ optExprNodes t ++ [.stmt (.BlockStmt b)]
  | .TypeSwitchStmt i a b => optStmtNodes i ++ [.stmt a, .stmt (.BlockStmt b)]
  | .CommClause c b => optStmtNodes c ++ b.map Node.stmt
  | .SelectStmt b => [.stmt (.BlockStmt b)]
  | .ForStmt i c p b => optStmtNodes i ++ optExprNodes c ++ optStmtNodes p ++ [.stmt (.BlockStmt b)]
  | .RangeStmt k v _ x b => optExprNodes k ++ optExprNodes v ++ [.expr x, .stmt (.BlockStmt b)]

/-- The nodes that `ast.Walk` walks below a node, in its order: the `switch` of
`ast.Walk`, comment groups left out. A nil `*ast.BlockStmt` has no node below
it (the walk does not get that far, see `WalkBody`). -/
def Node.children : Node → List Node
  | .expr e => e.children
  | .stmt s => s.children
  | .field (.mk names t tag) => names.map identNode ++ optExprNodes t ++ optBasicLitNodes tag
  | .fieldList l => l.list.map Node.field
  | .spec (.ImportSpec name path) => optIdentNodes name ++ [.expr (.BasicLit path)]
  | .spec (.ValueSpec names t values) => names.map identNode ++ optExprNodes t ++ values.map Node.expr
  | .spec (.TypeSpec name tp t) => identNode name :: (optFieldListNodes tp ++ [.expr t])
  | .decl .BadDecl => []
  | .decl (.GenDecl (.mk _ specs)) => specs.map Node.spec
  | .decl (.FuncDecl d) =>
      optFieldListNodes d.Recv ++ [identNode d.Name, .expr (.FuncType d.Typ)] ++ optBlockStmtNodes d.Body
  | .file f => identNode f.Name :: f.Decls.map Node.decl
  | .nilBlockStmt => []

/-- Runs `f` over a list of nodes from left to right, stopping at a panic. -/
def foldNodes {σ : Type} (f : σ → Node → Except Panic σ) : σ → List Node → Except Panic σ
  | s, [] => .ok s
  | s, c :: cs =>
    match f s c with
    | .error e => .error e
    | .ok s1 => foldNodes f s1 cs

/-- The function `ast.Walk` with a bound on the depth of the recursion. -/
def walkFuel {σ : Type} (visit : σ → Option Node → Except Panic (σ × Bool)) :
    Nat → σ → Node → Except Panic σ
  | 0, s, _ => .ok s
  | fuel + 1, s, node =>
    match visit s (some node) with
    | .error e => .error e
    | .ok (s1, false) => .ok s1
    | .ok (s1, true) =>
      match foldNodes (walkFuel visit fuel) s1 node.children with
      | .error e => .error e
      | .ok s2 =>
        match visit s2 none with
        | .error e => .error e
        | .ok (s3, _) => .ok s3

/-- The function `ast.Walk(v, node)` for a node that is not a nil pointer:
`v.Visit(node)`, then, unless that returned `nil`, the walk of the children
and `v.Visit(nil)`. The bound `node.size` is never reached (`Walk_eq`). -/
def Walk {σ : Type} (visit : σ → Option Node → Except Panic (σ × Bool)) (s : σ) (node : Node) :
    Except Panic σ :=
  walkFuel visit node.size s node

/-- The call `ast.Walk(v, body)` for the `Body` of a function declaration. With
no body, `body` is a nil `*ast.BlockStmt` inside a non-nil interface: `Visit`
is called on it and, unless it returns `nil`, `ast.Walk` reads `n.List`
through the nil pointer. -/
def WalkBody {σ : Type} (visit : σ → Option Node → Except Panic (σ × Bool)) (s : σ) :
    Option BlockStmt → Except Panic σ
  | some b => Walk visit s (.stmt (.BlockStmt b))
  | none =>
    match visit s (some .nilBlockStmt) with
    | .error e => .error e
    | .ok (s1, false) => .ok s1
    | .ok (_, true) => .error .nilPointerDereference

def preorderFuel (prune : Node → Bool) : Nat → Node → List Node
  | 0, _ => []
  | fuel + 1, node =>
    node :: (if prune node then [] else node.children.flatMap (preorderFuel prune fuel))

/-- The nodes of the tree below `node` in the order of `ast.Walk` (source
order, a node before its children), the children of the nodes that satisfy
`prune` left out. -/
def preorder (prune : Node → Bool) (node : Node) : List Node :=
  preorderFuel prune node.size node

/-- All nodes of the tree below `node`, in the order of `ast.Walk`. -/
def subnodes (node : Node) : List Node := preorder (fun _ => false) node

/-- Calls `visit` on the nodes of a list, one after the other. -/
def visitAll {σ : Type} (visit : σ → Option Node → Except Panic (σ × Bool)) :
    σ → List Node → Except Panic σ :=
  foldNodes (fun s n => match visit s (some n) with
    | .error e => .error e
    | .ok (s1, _) => .ok s1)

/-! ## `checks/http_status_code.go`: the helpers -/

/-- The function `isIdent`. -/
def isIdent (expr : Expr) (ident : String) : Bool :=
  match expr with
  | .Ident id => id.Name = ident
  | _ => false

/-! ## `checks/models.go` -/

/-- The `walker` of `models.go`, without its `pass` (the diagnostics are
returned by `checkModelsSession`). -/
structure walker where
  fname : String
  fnname : String
  createsSession : Bool
  closesSession : Bool
  sessionName : String
deriving DecidableEq, Repr

def walker.HasUnclosedSession (w : walker) : Bool :=
  w.createsSession && !w.closesSession

/-- The function `isCloseSessionExpr`. -/
def isCloseSessionExpr (expr : Expr) (name : String) : Bool :=
  if name = "" then false
  else
    let expr := match expr with
      | .CallExpr call => call.Fun
      | e => e
    match expr with
    | .SelectorExpr (.Ident id) sel =>
      if id.Name ≠ name ∨ sel.Name ≠ "Close" then false else true
    | _ => false

/-- The function `isNewSession`. -/
def isNewSession (expr : Expr) : Bool :=
  match expr with
  | .CallExpr value =>
    match value.Fun with
    | .SelectorExpr (.Ident id) sel =>
      if id.Name ≠ "x" ∨ sel.Name ≠ "NewSession" then false else true
    | _ => false
  | _ => false

/-- The body of the loop of `walker.Visit` over the results of a return
statement. -/
def walker.visitResult (w : walker) (expr : Expr) : walker :=
  match expr with
  | .Ident id =>
    if w.sessionName ≠ "" ∧ id.Name = w.sessionName then { w with closesSession := true }
    else w
  | _ => w

/-- The method `walker.Visit`. The result is the walker after the call and
whether the method returned `w` (`true`) or `nil` (`false`). -/
def walker.Visit (w : walker) (node : Option Node) : Except Panic (walker × Bool) :=
  match node with
  | none => .ok (w, false)
  | some (.stmt (.ExprStmt x)) =>
    if isCloseSessionExpr x w.sessionName then
      .ok ({ w with closesSession := true }, false)
    else .ok (w, true)
  | some (.stmt (.AssignStmt lhs _ rhs)) =>
    if lhs.length ≠ 1 ∧ rhs.length ≠ 1 then .ok (w, true)
    else
      match (lhs[0]? : Option Expr) with
      | none => .error .indexOutOfRange
      | some (.Ident name) =>
        match (rhs[0]? : Option Expr) with
        | none => .error .indexOutOfRange
        | some r0 =>
          if isNewSession r0 then
            .ok ({ w with createsSession := true, sessionName := name.Name }, false)
          else if isCloseSessionExpr r0 w.sessionName then
            .ok ({ w with closesSession := true }, false)
          else .ok (w, true)
      | some _ => .ok (w, true)
  | some (.stmt (.DeferStmt call)) =>
    if isCloseSessionExpr (.CallExpr call) w.sessionName then
      .ok ({ w with closesSession := true }, false)
    else .ok (w, true)
  | some (.stmt (.ReturnStmt results)) => .ok (results.foldl walker.visitResult w, true)
  | some _ => .ok (w, true)

/-- The function `fnDeclHasNamedReturn`. -/
def fnDeclHasNamedReturn (fnDecl : FuncDecl) (name : String) : Bool :=
  match fnDecl.Typ.Results with
  | none => false
  | some results =>
    results.list.any (fun result =>
      match result.Names with
      | [id] => id.Name = name
      | _ => false)

/-- The method `FieldList.NumFields` of `go/ast`: the number of parameters of
the list, an anonymous field counting once. -/
def FieldList.NumFields (f : FieldList) : Nat :=
  f.list.foldl (fun n g => n + (if g.Names.length = 0 then 1 else g.Names.length)) 0

/-- The function `formatFunctionName`. `formatNode` is the printer of
`go/format`; for a field without a type the printer fails and the buffer
stays empty. The fields of a list are never nil pointers here, so the test
`List[...] != nil` always succeeds. -/
def formatFunctionName (formatNode : Expr → String) (fnDecl : FuncDecl) : Except Panic String :=
  let fnname := fnDecl.Name.Name
  match fnDecl.Recv with
  | none => .ok fnname
  | some recv =>
    if recv.NumFields = 0 then .error .indexOutOfRange
    else
      match (recv.list[recv.NumFields - 1]? : Option Field) with
      | none => .error .indexOutOfRange
      | some field =>
        let ns := match field.Typ with
          | none => ""
          | some t => formatNode t
        match ns.data with
        | [] => .error .indexOutOfRange
        | c :: rest =>
          let ns := if c = '*' then String.mk rest else ns
          .ok (ns ++ "." ++ fnname)

/-- A diagnostic of `pass.Reportf`. -/
structure Diagnostic where
  Pos : Nat
  Message : String
deriving DecidableEq, Repr

/-- The body of the inner loop of `checkModelsSession` for a function
declaration `fnDecl` of the file named `fname`; `diags` are the diagnostics
reported so far. -/
def checkFuncDecl (formatNode : Expr → String) (fname : String) (fnDecl : FuncDecl)
    (diags : List Diagnostic) : Except Panic (List Diagnostic) :=
  match formatFunctionName formatNode fnDecl with
  | .error e => .error e
  | .ok fnname =>
    let w : walker :=
      { fname := fname, fnname := fnname, createsSession := false, closesSession := false,
        sessionName := "" }
    match WalkBody walker.Visit w fnDecl.Body with
    | .error e => .error e
    | .ok w =>
      let w := if w.HasUnclosedSession ∧ w.sessionName ≠ "" then
          { w with closesSession := fnDeclHasNamedReturn fnDecl w.sessionName }
        else w
      if w.HasUnclosedSession then
        .ok (diags ++ [{ Pos := fnDecl.Pos, Message := fnname ++ " opens session but does not close it" }])
      else .ok diags

/-- The loop over the declarations of a file. -/
def checkDecls (formatNode : Expr → String) (fname : String) :
    List Decl → List Diagnostic → Except Panic (List Diagnostic)
  | [], diags => .ok diags
  | .FuncDecl fnDecl :: rest, diags =>
    match checkFuncDecl formatNode fname fnDecl diags with
    | .error e => .error e
    | .ok diags1 => checkDecls formatNode fname rest diags1
  | _ :: rest, diags => checkDecls formatNode fname rest diags

/-- The loop over the files of the pass. -/
def checkFiles (formatNode : Expr → String) : List File → List Diagnostic → Except Panic (List Diagnostic)
  | [], diags => .ok diags
  | file :: rest, diags =>
    match checkDecls formatNode file.Name.Name file.Decls diags with
    | .error e => .error e
    | .ok diags1 => checkFiles formatNode rest diags1

/-- What the analyzers read of an `*analysis.Pass`. -/
structure Pass where
  PkgPath : String
  Files : List File

/-- The function `checkModelsSession`. The result is the list of the
diagnostics reported; the Go function returns `nil, nil` on every path that
does not panic. `EqualFold` is `strings.EqualFold`. -/
def checkModelsSession (EqualFold : String → String → Bool) (formatNode : Expr → String)
    (pass : Pass) : Except Panic (List Diagnostic) :=
  if !EqualFold pass.PkgPath "code.gitea.io/gitea/models" then .ok []
  else checkFiles formatNode pass.Files []

/-! ## The shapes that the session checker looks for -/

/-- The variable of a session-creating assignment that `walker.Visit`
records: an assignment with one operand on at least one side whose first
left-hand operand is an identifier and whose first right-hand operand is a
call `x.NewSession(...)`. -/
def Node.tracks : Node → Option String
  | .stmt (.AssignStmt (.Ident name :: ls) _ (r0 :: rs)) =>
    if (ls.length = 0 ∨ rs.length = 0) ∧ isNewSession r0 = true then some name.Name else none
  | _ => none

/-- The node is a session-creating assignment that `walker.Visit` records. -/
def Node.isTracked (n : Node) : Bool := n.tracks.isSome

/-- The node is the expression statement `v.Close(...)` (or `v.Close`) or the
deferred call `defer v.Close(...)`. -/
def Node.closes (v : String) : Node → Bool
  | .stmt (.ExprStmt x) => isCloseSessionExpr x v
  | .stmt (.DeferStmt call) => isCloseSessionExpr (.CallExpr call) v
  | _ => false

/-- The node is an assignment whose first right-hand operand is `v.Close(...)`
(or `v.Close`). -/
def Node.assignsClose (v : String) : Node → Bool
  | .stmt (.AssignStmt _ _ (r0 :: _)) => isCloseSessionExpr r0 v
  | _ => false

/-- The node is a return statement one of whose results is the bare
identifier `v`. -/
def Node.returns (v : String) : Node → Bool
  | .stmt (.ReturnStmt results) => results.any (fun e => isIdent e v)
  | _ => false

/-- The node is an expression of the shape `x.NewSession(...)`. -/
def Node.isNewSessionExpr : Node → Bool
  | .expr e => isNewSession e
  | _ => false

/-- An assignment statement has an operand on each side (`go/parser` builds no
other); every other node passes. -/
def Node.operandsOk : Node → Bool
  | .stmt (.AssignStmt lhs _ rhs) => lhs.length ≠ 0 ∧ rhs.length ≠ 0
  | _ => true

/-- The node that `fnDecl.Body` converts to. -/
def FuncDecl.bodyNode (fnDecl : FuncDecl) : Node :=
  match fnDecl.Body with
  | some b => .stmt (.BlockStmt b)
  | none => .nilBlockStmt

/-- All nodes of the body of a function declaration, in source order. -/
def FuncDecl.bodyNodes (fnDecl : FuncDecl) : List Node := subnodes fnDecl.bodyNode

/-- The nodes of the body of a function declaration in the order in which the
walk meets them: source order, the operands of the session-creating
assignments left out. -/
def FuncDecl.walkOrder (fnDecl : FuncDecl) : List Node := preorder Node.isTracked fnDecl.bodyNode

/-- The receiver of a declaration is absent or, as in every Go program that
type-checks, a single parameter with at most one name, whose type the printer
renders as a non-empty text. -/
def FuncDecl.recvOk (formatNode : Expr → String) (fnDecl : FuncDecl) : Bool :=
  match fnDecl.Recv with
  | none => true
  | some (.mk [.mk names (some t) _]) => names.length ≤ 1 ∧ formatNode t ≠ ""
  | some _ => false

/-- The declarations that the parser and the type checker hand to the
analyzer, as far as the session checker depends on it: a body, a well-formed
receiver, and assignments with operands on both sides. -/
def FuncDecl.wellFormed (formatNode : Expr → String) (fnDecl : FuncDecl) : Bool :=
  fnDecl.recvOk formatNode && fnDecl.Body.isSome && fnDecl.bodyNodes.all Node.operandsOk

/-- The names of all result parameters of a function declaration. -/
def FuncDecl.resultNames (fnDecl : FuncDecl) : List String :=
  match fnDecl.Typ.Results with
  | none => []
  | some results => results.list.flatMap (fun field => field.Names.map Ident.Name)

/-- The walker that `checkModelsSession` starts the walk of a function with. -/
def walker.init (fname fnname : String) : walker :=
  { fname := fname, fnname := fnname, createsSession := false, closesSession := false,
    sessionName := "" }

/-- The sum of the sizes of a list of nodes. -/
def sizeNodes : List Node → Nat
  | [] => 0
  | n :: ns => n.size + sizeNodes ns

/-! ## Example declarations -/

/-- The identifier `name` as an expression. -/
def ident (name : String) : Expr := .Ident ⟨name⟩

/-- The call `recv.method(args)` as a call expression. -/
def methodCallExpr (recv method : String) (args : List Expr) : CallExpr :=
  .mk (.SelectorExpr (ident recv) ⟨method⟩) args

/-- The call `recv.method(args)`. -/
def methodCall (recv method : String) (args : List Expr) : Expr :=
  .CallExpr (methodCallExpr recv method args)

/-- The assignment `v tok x.NewSession(args)`, with `tok` one of `:=`, `=`. -/
def sessionAssign (v tok : String) (args : List Expr) : Stmt :=
  .AssignStmt [ident v] tok [methodCall "x" "NewSession" args]

/-- The expression statement `v.Close(args)`. -/
def closeStmt (v : String) (args : List Expr) : Stmt := .ExprStmt (methodCall v "Close" args)

/-- The statement `defer v.Close(args)`. -/
def deferClose (v : String) (args : List Expr) : Stmt := .DeferStmt (methodCallExpr v "Close" args)

/-- The statement `sess.Insert(v)`. -/
def insertStmt : Stmt := .ExprStmt (methodCall "sess" "Insert" [ident "v"])

/-- A printer for the receiver types of the examples: `T` and `*T`. -/
def renderType : Expr → String
  | .Ident id => id.Name
  | .StarExpr (.Ident id) => "*" ++ id.Name
  | _ => "?"

/-- Equality of two texts up to the case of the letters `A` to `Z`: the
function `strings.EqualFold` on texts without other letters. -/
def asciiEqualFold (s t : String) : Bool :=
  s.data.map Char.toLower = t.data.map Char.toLower

/-- The type `*Session`. -/
def sessionPtr : Expr := .StarExpr (ident "Session")

/-- A function type `func()` at position `pos`, with the given results. -/
def funcType (pos : Nat) (results : Option FieldList) : FuncType := .mk pos none (.mk []) results

/-- The declaration `func name() { body }`. -/
def plainFunc (name : String) (pos : Nat) (body : List Stmt) : FuncDecl :=
  { Recv := none, Name := ⟨name⟩, Typ := funcType pos none, Body := some (.mk body) }

/-- `func Foo() { sess := x.NewSession(); defer sess.Close(); sess.Insert(v) }` -/
def exFoo : FuncDecl :=
  plainFunc "Foo" 10 [sessionAssign "sess" ":=" [], deferClose "sess" [], insertStmt]

/-- `func Bar() { sess := x.NewSession(); sess.Insert(v) }` -/
def exBar : FuncDecl := plainFunc "Bar" 20 [sessionAssign "sess" ":=" [], insertStmt]

/-- `func Baz() { sess := x.NewSession(); if cond { sess.Close() } }` -/
def exBaz : FuncDecl :=
  plainFunc "Baz" 30
    [sessionAssign "sess" ":=" [], .IfStmt none (ident "cond") (.mk [closeStmt "sess" []]) none]

/-- `func (r *Repo) Load() (sess *Session) { sess = x.NewSession(); return }` -/
def exLoad : FuncDecl :=
  { Recv := some (.mk [.mk [⟨"r"⟩] (some (.StarExpr (ident "Repo"))) none])
    Name := ⟨"Load"⟩
    Typ := funcType 40 (some (.mk [.mk [⟨"sess"⟩] (some sessionPtr) none]))
    Body := some (.mk [sessionAssign "sess" "=" [], .ReturnStmt []]) }

/-- `func Open() *Session { sess := x.NewSession(); return sess }` -/
def exOpen : FuncDecl :=
  { Recv := none
    Name := ⟨"Open"⟩
    Typ := funcType 50 (some (.mk [.mk [] (some sessionPtr) none]))
    Body := some (.mk [sessionAssign "sess" ":=" [], .ReturnStmt [ident "sess"]]) }

/-- `func Pair() (sess, other *Session) { sess = x.NewSession(); return }` -/
def exPair : FuncDecl :=
  { Recv := none
    Name := ⟨"Pair"⟩
    Typ := funcType 60 (some (.mk [.mk [⟨"sess"⟩, ⟨"other"⟩] (some sessionPtr) none]))
    Body := some (.mk [sessionAssign "sess" "=" [], .ReturnStmt []]) }

/-- `func Early() { defer sess.Close(); sess = x.NewSession() }`, with `sess` a
variable of the package. -/
def exEarly : FuncDecl := plainFunc "Early" 70 [deferClose "sess" [], sessionAssign "sess" "=" []]

/-- `func Two() { a := x.NewSession(); b := x.NewSession(); a.Close() }` -/
def exTwo : FuncDecl :=
  plainFunc "Two" 80 [sessionAssign "a" ":=" [], sessionAssign "b" ":=" [], closeStmt "a" []]

/-- `func TwoB() { a := x.NewSession(); b := x.NewSession(); defer b.Close(); a.Insert(v) }` -/
def exTwoB : FuncDecl :=
  plainFunc "TwoB" 90
    [sessionAssign "a" ":=" [], sessionAssign "b" ":=" [], deferClose "b" [],
      .ExprStmt (methodCall "a" "Insert" [ident "v"])]

/-- `func Plain() { sess.Close(); return sess }`: no session is created. -/
def exPlain : FuncDecl := plainFunc "Plain" 100 [closeStmt "sess" [], .ReturnStmt [ident "sess"]]

/-- `func Foo()`: a declaration without a body (the function is implemented
outside Go). -/
def exNoBody : FuncDecl :=
  { Recv := none, Name := ⟨"Foo"⟩, Typ := funcType 110 none, Body := none }

/-- The statement `sess, err := x.NewSession()`. -/
def exSessErr : Stmt := .AssignStmt [ident "sess", ident "err"] ":=" [methodCall "x" "NewSession" []]

/-- The statement `a, b := x.NewSession(), 1`. -/
def exQuxAssign : Stmt :=
  .AssignStmt [ident "a", ident "b"] ":=" [methodCall "x" "NewSession" [], .BasicLit ⟨"INT", "1"⟩]

/-- The function declarations of the files of a pass, each with the name of
its file, in the order of the files and of the declarations. -/
def Pass.funcDecls (pass : Pass) : List (String × FuncDecl) :=
  pass.Files.flatMap (fun file => file.Decls.filterMap (fun decl =>
    match decl with
    | .FuncDecl fnDecl => some (file.Name.Name, fnDecl)
    | _ => none))

/-- The analysis `checkFuncDecl` of a list of function declarations, one after
the other, each adding its diagnostic to those of the ones before. -/
def checkAll (formatNode : Expr → String) :
    List (String × FuncDecl) → List Diagnostic → Except Panic (List Diagnostic)
  | [], diags => .ok diags
  | (fname, fnDecl) :: rest, diags =>
    match checkFuncDecl formatNode fname fnDecl diags with
    | .error e => .error e
    | .ok diags1 => checkAll formatNode rest diags1

/-- A file `name` of the examples, with the given declarations. -/
def exFile (name : String) (decls : List Decl) : File :=
  { Name := ⟨name⟩, Decls := decls, Imports := [], Comments := [] }

/-- A pass over the package `code.gitea.io/gitea/models`, its path written
with capitals. -/
def exModelsPass : Pass :=
  { PkgPath := "code.gitea.io/Gitea/Models"
    Files := [exFile "models" [.FuncDecl exFoo, .GenDecl (.mk "var" []), .FuncDecl exBar],
      exFile "models" [.FuncDecl exTwo]] }

/-- A pass over another package, with the same files. -/
def exOtherPass : Pass := { exModelsPass with PkgPath := "code.gitea.io/gitea/modules" }

/-- `func Both() (sess *Session) { sess = x.NewSession(); tmp := x.NewSession(); tmp.Insert(v); return }` -/
def exBoth : FuncDecl :=
  { Recv := none
    Name := ⟨"Both"⟩
    Typ := funcType 120 (some (.mk [.mk [⟨"sess"⟩] (some sessionPtr) none]))
    Body := some (.mk [sessionAssign "sess" "=" [], sessionAssign "tmp" ":=" [],
      .ExprStmt (methodCall "tmp" "Insert" [ident "v"]), .ReturnStmt []]) }

/-- `func (a, b T) M() { }`: two receiver names in one field. -/
def exTwoRecv : FuncDecl :=
  { Recv := some (.mk [.mk [⟨"a"⟩, ⟨"b"⟩] (some (ident "T")) none])
    Name := ⟨"M"⟩
    Typ := funcType 130 none
    Body := some (.mk []) }

/-! ## The words of the specification -/

/-- A text with one leading pointer marker `*` removed. -/
def stripStar (s : String) : String :=
  match s.data with
  | '*' :: rest => String.mk rest
  | _ => s

/-- The selector expression `recv.sel`. -/
def selectorOf (recv sel : String) : Expr := .SelectorExpr (.Ident ⟨recv⟩) ⟨sel⟩

/-! ## `checks/http_status_code.go` -/

/-- The function `isPkgDot`. -/
def isPkgDot (expr : Expr) (pkg name : String) : Bool :=
  match expr with
  | .SelectorExpr x sel => isIdent x pkg && isIdent (.Ident sel) name
  | _ => false

/-- A diagnostic that an analyzer reports at the position of a node; the node
stands for its position. -/
structure NodeDiagnostic where
  At : Node
  Message : String

/-- The function literal that `run` hands to `ast.Inspect`: the reports so
far, the node inspected (`none` is `nil`), and the answer whether the
inspection descends. -/
def inspectStatusCode (reports : List NodeDiagnostic) (n : Option Node) :
    Except Panic (List NodeDiagnostic × Bool) :=
  match n with
  | some (.expr (.CallExpr ce)) =>
    let isUsingHttpStatusCode := isPkgDot ce.Fun "ctx" "Status" || isPkgDot ce.Fun "ctx" "JSON"
    if !isUsingHttpStatusCode then .ok (reports, true)
    else if ce.Args.length = 0 then .ok (reports, true)
    else
      match (ce.Args[0]? : Option Expr) with
      | none => .error .indexOutOfRange
      | some (.BasicLit _) =>
        .ok (reports ++ [{ At := .expr (.CallExpr ce),
                           Message := "Stop using literal value in ctx.Status" }], false)
      | some _ => .ok (reports, true)
  | _ => .ok (reports, true)

/-- The loop of `run` over the files: `ast.Inspect(file, f)` is
`ast.Walk(inspector(f), file)`. -/
def runFiles : List File → List NodeDiagnostic → Except Panic (List NodeDiagnostic)
  | [], reports => .ok reports
  | file :: rest, reports =>
    match Walk inspectStatusCode reports (.file file) with
    | .error e => .error e
    | .ok reports1 => runFiles rest reports1

/-- The function `run` of the analyzer `HttpStatusCode`: the diagnostics
reported. -/
def run (pass : Pass) : Except Panic (List NodeDiagnostic) := runFiles pass.Files []

/-- The node is a call `ctx.Status(<literal>, ...)` or `ctx.JSON(<literal>, ...)`:
the callee is the selector `Status` or `JSON` on the identifier `ctx`, there
is an argument, and the first argument is a basic literal. -/
def Node.isLiteralStatusCall : Node → Bool
  | .expr (.CallExpr (.mk (.SelectorExpr (.Ident recv) sel) (.BasicLit _ :: _))) =>
    recv.Name = "ctx" ∧ (sel.Name = "Status" ∨ sel.Name = "JSON")
  | _ => false

/-- The diagnostic of `run` at a node. -/
def statusDiagnostic (n : Node) : NodeDiagnostic :=
  { At := n, Message := "Stop using literal value in ctx.Status" }

/-! ## `checks/denylisted-imports.go` -/

/-- The variable `deniedImports`, as shipped. -/
def deniedImports : List String := []

/-- The function `strings.TrimPrefix` for the prefix `"`. -/
def trimQuotePrefix (s : String) : String :=
  match s.data with
  | '"' :: rest => String.mk rest
  | _ => s

/-- The function `strings.TrimSuffix` for the suffix `"`. -/
def trimQuoteSuffix (s : String) : String :=
  match s.data.reverse with
  | '"' :: rest => String.mk rest.reverse
  | _ => s

/-- The list `substr` occurs in `s` as a run of consecutive elements. -/
def containsChars (substr : List Char) : List Char → Bool
  | [] => substr.isPrefixOf []
  | c :: rest => substr.isPrefixOf (c :: rest) || containsChars substr rest

/-- The function `strings.Contains`. -/
def stringContains (s substr : String) : Bool := containsChars substr.data s.data

/-- The text `Allow "<val>" import` that exempts the import of `val`. -/
def allowText (val : String) : String := "Allow \"" ++ val ++ "\" import"

/-- A diagnostic of `runDenylistImports`: the path of the import it is
reported at, and the message. -/
structure ImportDiagnostic where
  Path : BasicLit
  Message : String
deriving DecidableEq, Repr

/-- The search of `runDenylistImports` for an exemption of `val` in the
comments of a file. -/
def importAllowed (file : File) (val : String) : Bool :=
  file.Comments.any (fun comment => stringContains comment.Text (allowText val))

/-- The body of the loop of `runDenylistImports` over the imports of a file,
for the import with path `im`: the loop over the deny list. -/
def checkImport (denied : List String) (file : File) (im : BasicLit) :
    List String → List ImportDiagnostic → List ImportDiagnostic
  | [], reports => reports
  | deniedImport :: rest, reports =>
    let val := trimQuoteSuffix (trimQuotePrefix im.Value)
    if deniedImport = val then
      if !importAllowed file val then
        checkImport denied file im rest
          (reports ++ [{ Path := im,
                         Message := "\"" ++ deniedImport ++ "\" is not allowed to be imported" }])
      else checkImport denied file im rest reports
    else checkImport denied file im rest reports

/-- The loop of `runDenylistImports` over the imports of a file. -/
def checkImports (denied : List String) (file : File) :
    List BasicLit → List ImportDiagnostic → List ImportDiagnostic
  | [], reports => reports
  | im :: rest, reports => checkImports denied file rest (checkImport denied file im denied reports)

/-- The function `runDenylistImports` with the deny list `denied` in the place
of the variable `deniedImports`: the diagnostics reported. The Go function
has one return, of `nil, nil`. The message is handed to `pass.Reportf` as the
format; it is the text below for an entry without a `%`. -/
def runDenylistImportsWith (denied : List String) (pass : Pass) :
    Except Panic (List ImportDiagnostic) :=
  .ok (pass.Files.foldl (fun reports file => checkImports denied file file.Imports reports) [])

/-- The function `runDenylistImports`. -/
def runDenylistImports (pass : Pass) : Except Panic (List ImportDiagnostic) :=
  runDenylistImportsWith deniedImports pass

/-- `func (r Repo) Load() (sess *Session) { sess = x.NewSession(); return }` -/
def exLoadValue : FuncDecl :=
  { exLoad with Recv := some (.mk [.mk [⟨"r"⟩] (some (ident "Repo")) none]) }

/-- `func Qux() { a, b := x.NewSession(), 1; a.Insert(v) }` -/
def exQux : FuncDecl :=
  plainFunc "Qux" 140 [exQuxAssign, .ExprStmt (methodCall "a" "Insert" [ident "v"])]

/-- An assignment statement with a call `x.NewSession(...)` among its
right-hand operands has at least two operands on each side; every other node
passes. -/
def Node.sessionOnlyInMultiAssign : Node → Bool
  | .stmt (.AssignStmt lhs _ rhs) => !rhs.any isNewSession || (decide (2 ≤ lhs.length) && decide (2 ≤ rhs.length))
  | _ => true

/-- A walker that tracks the session `name`, marked closed or not. -/
def exWalker (name : String) (closed : Bool) : walker :=
  { fname := "foo.go", fnname := "Foo", createsSession := true, closesSession := closed,
    sessionName := name }

/-- The call `ctx.Status(404)`. -/
def exStatusInner : Expr := methodCall "ctx" "Status" [.BasicLit ⟨"INT", "404"⟩]

/-- The call `ctx.JSON(200, ctx.Status(404))`. -/
def exStatusOuter : Expr := methodCall "ctx" "JSON" [.BasicLit ⟨"INT", "200"⟩, exStatusInner]

/-- A file with `func Handle() { ctx.JSON(200, ctx.Status(404)) }`. -/
def exStatusFile : File := exFile "handlers" [.FuncDecl (plainFunc "Handle" 150 [.ExprStmt exStatusOuter])]

/-- A pass over the file `exStatusFile`. -/
def exStatusPass : Pass := { PkgPath := "example.com/handlers", Files := [exStatusFile] }

/-- The path of an import with its surrounding double quotes removed, as
`runDenylistImports` computes it. -/
def importPath (im : BasicLit) : String := trimQuoteSuffix (trimQuotePrefix im.Value)

/-- The diagnostic of `runDenylistImports` at the import `im` for the entry
`deniedImport` of the deny list. -/
def importDiagnostic (im : BasicLit) (deniedImport : String) : ImportDiagnostic :=
  { Path := im, Message := "\"" ++ deniedImport ++ "\" is not allowed to be imported" }

/-- A file that imports `io/ioutil` and `encoding/json` and holds the comment
`// Allow "io/ioutil" import`. -/
def exImportFile : File :=
  { Name := ⟨"main"⟩
    Decls := []
    Imports := [⟨"STRING", "\"io/ioutil\""⟩, ⟨"STRING", "\"encoding/json\""⟩]
    Comments := [⟨"Allow \"io/ioutil\" import\n"⟩] }

/-- A pass over the file `exImportFile`. -/
def exImportPass : Pass := { PkgPath := "example.com/main", Files := [exImportFile] }

/-- A pass over the package `code.gitea.io/gitea/models` with one file that
declares `func Foo()` without a body and then the leaking `func Bar()`. -/
def exPanicPass : Pass :=
  { PkgPath := "code.gitea.io/gitea/models"
    Files := [exFile "models" [.FuncDecl exNoBody, .FuncDecl exBar]] }

/-- The pass `exPanicPass` without the declaration `func Foo()`. -/
def exLeakPass : Pass :=
  { PkgPath := "code.gitea.io/gitea/models", Files := [exFile "models" [.FuncDecl exBar]] }

/-! ## Theorems -/

/-! ### The walk: sizes and unfolding -/

theorem sizeNodes_append (l r : List Node) : sizeNodes (l ++ r) = sizeNodes l + sizeNodes r := by
  induction l with
  | nil => simp [sizeNodes]
  | cons a l ih => simp [sizeNodes, ih]; omega

theorem sizeNodes_map_expr (l : List Expr) : sizeNodes (l.map Node.expr) = sizeExprs l := by
  induction l with
  | nil => simp [sizeNodes, sizeExprs]
  | cons a l ih => simp [sizeNodes, sizeExprs, ih, Node.size]

theorem sizeNodes_map_stmt (l : List Stmt) : sizeNodes (l.map Node.stmt) = sizeStmts l := by
  induction l with
  | nil => simp [sizeNodes, sizeStmts]
  | cons a l ih => simp [sizeNodes, sizeStmts, ih, Node.size]

theorem sizeNodes_map_field (l : List Field) : sizeNodes (l.map Node.field) = sizeFields l := by
  induction l with
  | nil => simp [sizeNodes, sizeFields]
  | cons a l ih => simp [sizeNodes, sizeFields, ih, Node.size]

theorem sizeNodes_map_spec (l : List Spec) : sizeNodes (l.map Node.spec) = sizeSpecs l := by
  induction l with
  | nil => simp [sizeNodes, sizeSpecs]
  | cons a l ih => simp [sizeNodes, sizeSpecs, ih, Node.size]

theorem sizeNodes_map_decl (l : List Decl) : sizeNodes (l.map Node.decl) = sizeDecls l := by
  induction l with
  | nil => simp [sizeNodes, sizeDecls]
  | cons a l ih => simp [sizeNodes, sizeDecls, ih, Node.size]

theorem sizeNodes_map_ident (l : List Ident) : sizeNodes (l.map identNode) = l.length := by
  induction l with
  | nil => simp [sizeNodes]
  | cons a l ih => simp [sizeNodes, ih, Node.size, identNode, Expr.size]; omega

theorem sizeNodes_optExpr (o : Option Expr) : sizeNodes (optExprNodes o) = sizeOptExpr o := by
  cases o <;> simp [optExprNodes, sizeNodes, sizeOptExpr, Node.size]

theorem sizeNodes_optStmt (o : Option Stmt) : sizeNodes (optStmtNodes o) = sizeOptStmt o := by
  cases o <;> simp [optStmtNodes, sizeNodes, sizeOptStmt, Node.size]

theorem sizeNodes_optFieldList (o : Option FieldList) :
    sizeNodes (optFieldListNodes o) = sizeOptFieldList o := by
  cases o <;> simp [optFieldListNodes, sizeNodes, sizeOptFieldList, Node.size]

theorem sizeNodes_optIdent (o : Option Ident) : sizeNodes (optIdentNodes o) ≤ 1 := by
  cases o <;> simp [optIdentNodes, sizeNodes, Node.size, identNode, Expr.size]

theorem sizeNodes_optBasicLit (o : Option BasicLit) : sizeNodes (optBasicLitNodes o) ≤ 1 := by
  cases o <;> simp [optBasicLitNodes, sizeNodes, Node.size, Expr.size]

theorem exprChildren_size (e : Expr) : sizeNodes e.children < e.size := by
  cases e <;>
    simp [Expr.children, Expr.size, sizeNodes, sizeNodes_append, sizeNodes_map_expr,
      sizeNodes_optExpr, sizeNodes_optFieldList, Node.size, identNode, CallExpr.size,
      FuncType.size, Stmt.size] <;> try omega
  case CallExpr c => cases c; simp [CallExpr.Fun, CallExpr.Args, CallExpr.size]; omega
  case FuncType t =>
    cases t
    simp [Expr.children, FuncType.size, sizeNodes, sizeNodes_append, sizeNodes_optFieldList,
      Node.size]
    omega

theorem stmtChildren_size (s : Stmt) : sizeNodes s.children < s.size := by
  cases s <;>
    simp [Stmt.children, Stmt.size, sizeNodes, sizeNodes_append, sizeNodes_map_expr,
      sizeNodes_map_stmt, sizeNodes_optExpr, sizeNodes_optStmt, Node.size, identNode,
      Expr.size, Decl.size] <;> try omega
  case BranchStmt tok l => have := sizeNodes_optIdent l; omega
  case BlockStmt b => cases b; simp [BlockStmt.list, BlockStmt.size, sizeNodes_map_stmt]; omega

theorem nodeChildren_size (n : Node) : sizeNodes n.children < n.size := by
  cases n with
  | expr e => exact exprChildren_size e
  | stmt s => exact stmtChildren_size s
  | field f =>
    cases f with
    | mk names t tag =>
      have := sizeNodes_optBasicLit tag
      simp [Node.children, Node.size, Field.size, sizeNodes_append, sizeNodes_map_ident,
        sizeNodes_optExpr]
      omega
  | fieldList l =>
    cases l
    simp [Node.children, Node.size, FieldList.size, FieldList.list, sizeNodes_map_field]
  | spec s =>
    cases s with
    | ImportSpec name path =>
      have := sizeNodes_optIdent name
      simp [Node.children, Node.size, Spec.size, sizeNodes_append, sizeNodes, Expr.size]
      omega
    | ValueSpec names t values =>
      simp [Node.children, Node.size, Spec.size, sizeNodes_append, sizeNodes_map_ident,
        sizeNodes_optExpr, sizeNodes_map_expr]
      omega
    | TypeSpec name tp t =>
      simp [Node.children, Node.size, Spec.size, sizeNodes_append, sizeNodes,
        sizeNodes_optFieldList, identNode, Expr.size]
      omega
  | decl d =>
    cases d with
    | BadDecl => simp [Node.children, Node.size, Decl.size, sizeNodes]
    | GenDecl g =>
      cases g
      simp [Node.children, Node.size, Decl.size, GenDecl.size, sizeNodes_map_spec]
      omega
    | FuncDecl d =>
      cases hb : d.Body <;>
        simp [Node.children, Node.size, Decl.size, FuncDecl.size, sizeNodes_append, sizeNodes,
          sizeNodes_optFieldList, identNode, Expr.size, optBlockStmtNodes, hb, Stmt.size] <;>
        omega
  | file f =>
    simp [Node.children, Node.size, File.size, sizeNodes, sizeNodes_map_decl, identNode,
      Expr.size]
    omega
  | nilBlockStmt => simp [Node.children, Node.size, sizeNodes]

theorem size_le_sizeNodes {c : Node} {cs : List Node} (h : c ∈ cs) : c.size ≤ sizeNodes cs := by
  induction cs with
  | nil => cases h
  | cons a l ih =>
    rcases List.mem_cons.1 h with h | h
    · subst h; simp [sizeNodes]
    · have := ih h
      simp [sizeNodes]; omega

theorem Node.size_child_lt {n c : Node} (h : c ∈ n.children) : c.size < n.size :=
  Nat.lt_of_le_of_lt (size_le_sizeNodes h) (nodeChildren_size n)

theorem foldNodes_congr {σ : Type} {f g : σ → Node → Except Panic σ} {cs : List Node}
    (h : ∀ c ∈ cs, ∀ s, f s c = g s c) (s : σ) : foldNodes f s cs = foldNodes g s cs := by
  induction cs generalizing s with
  | nil => rfl
  | cons a l ih =>
    simp only [foldNodes]
    rw [h a (List.mem_cons_self a l) s]
    cases g s a with
    | error e => rfl
    | ok s1 => exact ih (fun c hc => h c (List.mem_cons_of_mem a hc)) s1

theorem foldNodes_append {σ : Type} (f : σ → Node → Except Panic σ) (s : σ) (l r : List Node) :
    foldNodes f s (l ++ r) =
      match foldNodes f s l with
      | .error e => .error e
      | .ok s1 => foldNodes f s1 r := by
  induction l generalizing s with
  | nil => rfl
  | cons a l ih =>
    simp only [List.cons_append, foldNodes]
    cases f s a with
    | error e => rfl
    | ok s1 => exact ih s1

theorem walkFuel_eq_of_le {σ : Type} (visit : σ → Option Node → Except Panic (σ × Bool)) :
    ∀ (fuel1 fuel2 : Nat) (s : σ) (n : Node), n.size ≤ fuel1 → n.size ≤ fuel2 →
      walkFuel visit fuel1 s n = walkFuel visit fuel2 s n := by
  intro fuel1
  induction fuel1 with
  | zero =>
    intro fuel2 s n h1 _
    have := (nodeChildren_size n)
    omega
  | succ f1 ih =>
    intro fuel2 s n h1 h2
    cases fuel2 with
    | zero =>
      have := (nodeChildren_size n)
      omega
    | succ f2 =>
      have hc : ∀ c ∈ n.children, ∀ s, walkFuel visit f1 s c = walkFuel visit f2 s c := by
        intro c hc s
        have := Node.size_child_lt hc
        exact ih f2 s c (by omega) (by omega)
      simp only [walkFuel]
      cases visit s (some n) with
      | error e => rfl
      | ok p =>
        obtain ⟨s1, d⟩ := p
        cases d with
        | false => rfl
        | true =>
          simp only
          rw [foldNodes_congr hc s1]

/-- The unfolding of `Walk`: the bound on the depth is never reached. -/
theorem Walk_eq {σ : Type} (visit : σ → Option Node → Except Panic (σ × Bool)) (s : σ) (n : Node) :
    Walk visit s n =
      match visit s (some n) with
      | .error e => .error e
      | .ok (s1, false) => .ok s1
      | .ok (s1, true) =>
        match foldNodes (Walk visit) s1 n.children with
        | .error e => .error e
        | .ok s2 =>
          match visit s2 none with
          | .error e => .error e
          | .ok (s3, _) => .ok s3 := by
  have hpos : 0 < n.size := by have := (nodeChildren_size n); omega
  obtain ⟨f, hf⟩ : ∃ f, n.size = f + 1 := ⟨n.size - 1, by omega⟩
  have hc : ∀ c ∈ n.children, ∀ s, walkFuel visit f s c = Walk visit s c := by
    intro c hc s
    have := Node.size_child_lt hc
    exact walkFuel_eq_of_le visit f c.size s c (by omega) (Nat.le_refl _)
  unfold Walk
  rw [hf]
  simp only [walkFuel]
  cases visit s (some n) with
  | error e => rfl
  | ok p =>
    obtain ⟨s1, d⟩ := p
    cases d with
    | false => rfl
    | true =>
      simp only
      rw [foldNodes_congr hc s1]
      rfl

theorem preorderFuel_eq_of_le (prune : Node → Bool) :
    ∀ (fuel1 fuel2 : Nat) (n : Node), n.size ≤ fuel1 → n.size ≤ fuel2 →
      preorderFuel prune fuel1 n = preorderFuel prune fuel2 n := by
  intro fuel1
  induction fuel1 with
  | zero =>
    intro fuel2 n h1 _
    have := (nodeChildren_size n)
    omega
  | succ f1 ih =>
    intro fuel2 n h1 h2
    cases fuel2 with
    | zero =>
      have := (nodeChildren_size n)
      omega
    | succ f2 =>
      simp only [preorderFuel]
      congr 2
      apply List.flatMap_congr
      intro c hc
      have := Node.size_child_lt hc
      exact ih f2 c (by omega) (by omega)

/-- The unfolding of `preorder`. -/
theorem preorder_eq (prune : Node → Bool) (n : Node) :
    preorder prune n = n :: (if prune n then [] else n.children.flatMap (preorder prune)) := by
  have hpos : 0 < n.size := by have := (nodeChildren_size n); omega
  obtain ⟨f, hf⟩ : ∃ f, n.size = f + 1 := ⟨n.size - 1, by omega⟩
  unfold preorder
  rw [hf]
  simp only [preorderFuel]
  congr 2
  apply List.flatMap_congr
  intro c hc
  have := Node.size_child_lt hc
  exact preorderFuel_eq_of_le prune f c.size c (by omega) (Nat.le_refl _)

/-! ### The walk: invariants, and the walk as a run over the nodes in order -/

theorem foldNodes_inv {σ : Type} (f : σ → Node → Except Panic σ) (I : σ → Prop) (cs : List Node)
    (h : ∀ c ∈ cs, ∀ s, I s → ∃ s1, f s c = .ok s1 ∧ I s1) :
    ∀ s, I s → ∃ s1, foldNodes f s cs = .ok s1 ∧ I s1 := by
  induction cs with
  | nil => intro s hs; exact ⟨s, rfl, hs⟩
  | cons a l ih =>
    intro s hs
    obtain ⟨s1, h1, hI1⟩ := h a (List.mem_cons_self a l) s hs
    obtain ⟨s2, h2, hI2⟩ := ih (fun c hc => h c (List.mem_cons_of_mem a hc)) s1 hI1
    exact ⟨s2, by simp only [foldNodes, h1, h2], hI2⟩

theorem mem_preorder_self (prune : Node → Bool) (n : Node) : n ∈ preorder prune n := by
  rw [preorder_eq]; exact List.mem_cons_self _ _

theorem mem_preorder_of_child {prune : Node → Bool} {n c m : Node} (hp : prune n = false)
    (hc : c ∈ n.children) (hm : m ∈ preorder prune c) : m ∈ preorder prune n := by
  rw [preorder_eq, hp]
  exact List.mem_cons_of_mem _ (List.mem_flatMap.2 ⟨c, hc, hm⟩)

/-- A property of the state that every call of `Visit` on a node of the tree
keeps (and under which that call does not panic) holds after the walk, and the
walk does not panic. -/
theorem Walk_inv {σ : Type} (visit : σ → Option Node → Except Panic (σ × Bool))
    (prune : Node → Bool) (I : σ → Prop)
    (hnil : ∀ s, ∃ d, visit s none = .ok (s, d))
    (hprune : ∀ s n s1 d, prune n = true → visit s (some n) = .ok (s1, d) → d = false) :
    ∀ (n : Node) (s : σ),
      (∀ m ∈ preorder prune n, ∀ s, I s → ∃ s1 d, visit s (some m) = .ok (s1, d) ∧ I s1) →
      I s → ∃ s1, Walk visit s n = .ok s1 ∧ I s1 := by
  suffices H : ∀ (k : Nat) (n : Node), n.size = k → ∀ (s : σ),
      (∀ m ∈ preorder prune n, ∀ s, I s → ∃ s1 d, visit s (some m) = .ok (s1, d) ∧ I s1) →
      I s → ∃ s1, Walk visit s n = .ok s1 ∧ I s1 from fun n => H n.size n rfl
  intro k
  induction k using Nat.strong_induction_on with
  | _ k ih =>
    intro n hsz s hvis hI
    obtain ⟨s1, d, hv, hI1⟩ := hvis n (mem_preorder_self prune n) s hI
    rw [Walk_eq, hv]
    cases d with
    | false => exact ⟨s1, rfl, hI1⟩
    | true =>
      have hp : prune n = false := by
        cases hpn : prune n with
        | false => rfl
        | true => exact absurd (hprune s n s1 true hpn hv) (by simp)
      have hch : ∀ c ∈ n.children, ∀ s, I s → ∃ s1, Walk visit s c = .ok s1 ∧ I s1 := by
        intro c hc s hs
        have hlt := Node.size_child_lt hc
        exact ih c.size (by omega) c rfl s
          (fun m hm => hvis m (mem_preorder_of_child hp hc hm)) hs
      obtain ⟨s2, h2, hI2⟩ := foldNodes_inv (Walk visit) I n.children hch s1 hI1
      obtain ⟨d2, hd2⟩ := hnil s2
      exact ⟨s2, by simp only [h2, hd2], hI2⟩

theorem visitAll_nil {σ : Type} (visit : σ → Option Node → Except Panic (σ × Bool)) (s : σ) :
    visitAll visit s [] = .ok s := rfl

theorem visitAll_cons {σ : Type} (visit : σ → Option Node → Except Panic (σ × Bool)) (s : σ)
    (n : Node) (ns : List Node) :
    visitAll visit s (n :: ns) =
      match visit s (some n) with
      | .error e => .error e
      | .ok (s1, _) => visitAll visit s1 ns := by
  simp only [visitAll, foldNodes]
  cases visit s (some n) with
  | error e => rfl
  | ok p => rfl

theorem visitAll_append {σ : Type} (visit : σ → Option Node → Except Panic (σ × Bool)) (s : σ)
    (l r : List Node) :
    visitAll visit s (l ++ r) =
      match visitAll visit s l with
      | .error e => .error e
      | .ok s1 => visitAll visit s1 r := by
  simp only [visitAll]
  exact foldNodes_append _ s l r

/-- The walk as a run of `Visit` over the nodes in order. `prune` holds of the
nodes below which `Visit` never lets the walk descend; when every other
refusal to descend leaves the state in `Done`, and `Done` is never left, the
walk either ends in `Done` or has called `Visit` on exactly the nodes of
`preorder prune n`, in that order. -/
theorem Walk_fold {σ : Type} (visit : σ → Option Node → Except Panic (σ × Bool))
    (prune : Node → Bool) (Done : σ → Prop)
    (hnil : ∀ s, ∃ d, visit s none = .ok (s, d))
    (hprune : ∀ s n s1 d, prune n = true → visit s (some n) = .ok (s1, d) → d = false)
    (hskip : ∀ s n s1, visit s (some n) = .ok (s1, false) → prune n = true ∨ Done s1)
    (hdone : ∀ s n s1 d, Done s → visit s (some n) = .ok (s1, d) → Done s1) :
    ∀ (n : Node) (s : σ),
      (∀ m ∈ preorder prune n, ∀ s, ∃ p, visit s (some m) = .ok p) →
      ∃ s1, Walk visit s n = .ok s1 ∧ (Done s1 ∨ visitAll visit s (preorder prune n) = .ok s1) := by
  suffices H : ∀ (k : Nat) (n : Node), n.size = k → ∀ (s : σ),
      (∀ m ∈ preorder prune n, ∀ s, ∃ p, visit s (some m) = .ok p) →
      ∃ s1, Walk visit s n = .ok s1 ∧
        (Done s1 ∨ visitAll visit s (preorder prune n) = .ok s1) from fun n => H n.size n rfl
  intro k
  induction k using Nat.strong_induction_on with
  | _ k ih =>
    intro n hsz s htot
    obtain ⟨⟨s1, d⟩, hv⟩ := htot n (mem_preorder_self prune n) s
    rw [Walk_eq, hv, preorder_eq, visitAll_cons, hv]
    cases d with
    | false =>
      refine ⟨s1, rfl, ?_⟩
      rcases hskip s n s1 hv with hp | hd
      · right; simp [hp, visitAll_nil]
      · left; exact hd
    | true =>
      have hp : prune n = false := by
        cases hpn : prune n with
        | false => rfl
        | true => exact absurd (hprune s n s1 true hpn hv) (by simp)
      -- a walk started in `Done` ends in `Done`
      have hkeep : ∀ c ∈ n.children, ∀ s, Done s → ∃ s1, Walk visit s c = .ok s1 ∧ Done s1 := by
        intro c hc s hs
        refine Walk_inv visit prune Done hnil hprune c s ?_ hs
        intro m hm s2 hs2
        obtain ⟨⟨s3, d3⟩, h3⟩ := htot m (mem_preorder_of_child hp hc hm) s2
        exact ⟨s3, d3, h3, hdone s2 m s3 d3 hs2 h3⟩
      have hlist : ∀ (cs : List Node), (∀ c ∈ cs, c ∈ n.children) → ∀ s,
          ∃ s2, foldNodes (Walk visit) s cs = .ok s2 ∧
            (Done s2 ∨ visitAll visit s (cs.flatMap (preorder prune)) = .ok s2) := by
        intro cs
        induction cs with
        | nil => intro _ s; exact ⟨s, rfl, Or.inr rfl⟩
        | cons c cs ihcs =>
          intro hsub s
          have hc : c ∈ n.children := hsub c (List.mem_cons_self c cs)
          have hsub2 : ∀ c2 ∈ cs, c2 ∈ n.children :=
            fun c2 h2 => hsub c2 (List.mem_cons_of_mem c h2)
          have hlt := Node.size_child_lt hc
          obtain ⟨s2, hw, hor⟩ := ih c.size (by omega) c rfl s
            (fun m hm => htot m (mem_preorder_of_child hp hc hm))
          rcases hor with hd | hfold
          · obtain ⟨s3, h3, hd3⟩ := foldNodes_inv (Walk visit) Done cs
              (fun c2 h2 => hkeep c2 (hsub2 c2 h2)) s2 hd
            exact ⟨s3, by simp only [foldNodes, hw, h3], Or.inl hd3⟩
          · obtain ⟨s3, h3, hor3⟩ := ihcs hsub2 s2
            refine ⟨s3, by simp only [foldNodes, hw, h3], ?_⟩
            rcases hor3 with hd3 | hf3
            · exact Or.inl hd3
            · right
              rw [List.flatMap_cons, visitAll_append, hfold]
              exact hf3
      obtain ⟨s2, h2, hor⟩ := hlist n.children (fun c hc => hc) s1
      obtain ⟨d2, hd2⟩ := hnil s2
      refine ⟨s2, by simp only [h2, hd2], ?_⟩
      simpa [hp] using hor

/-! ### `walker.Visit` -/

theorem Visit_nil (w : walker) : w.Visit none = .ok (w, false) := rfl

/-- What a call of `walker.Visit` does at a session-creating assignment. -/
theorem Visit_tracks (w : walker) (n : Node) (u : String) (h : n.tracks = some u) :
    w.Visit (some n) = .ok ({ w with createsSession := true, sessionName := u }, false) := by
  unfold Node.tracks at h
  split at h
  · rename_i name ls tok r0 rs
    split at h
    · rename_i hc
      simp only [Option.some.injEq] at h
      subst h
      obtain ⟨hlen, hnew⟩ := hc
      rcases hlen with hl | hl <;>
        simp [walker.Visit, List.length_eq_zero.1 hl, hnew]
    · cases h
  · cases h

theorem visitResult_eq (w : walker) (e : Expr) :
    w.visitResult e =
      { w with closesSession := w.closesSession || (decide (w.sessionName ≠ "") && isIdent e w.sessionName) } := by
  cases w with
  | mk fname fnname cr cl nm =>
    unfold walker.visitResult isIdent
    split
    · split
      · rename_i h
        simp [h.1, h.2]
      · rename_i id h
        have : (decide (nm ≠ "") && decide (id.Name = nm)) = false := by
          simpa using h
        simp only [this, Bool.or_false]
    · simp

/-- The loop over the results of a return statement sets `closesSession`
when a result is the tracked identifier, and changes nothing else. -/
theorem foldl_visitResult (results : List Expr) (w : walker) :
    results.foldl walker.visitResult w =
      { w with closesSession := w.closesSession ||
          (decide (w.sessionName ≠ "") && Node.returns w.sessionName (.stmt (.ReturnStmt results))) } := by
  induction results generalizing w with
  | nil => simp [Node.returns]
  | cons e es ih =>
    rw [List.foldl_cons, ih, visitResult_eq]
    cases w with
    | mk fname fnname cr cl nm =>
      simp only [Node.returns, List.any_cons, walker.mk.injEq, true_and]
      cases cl <;> cases decide (nm ≠ "") <;> cases isIdent e nm <;> simp

theorem walker_eq_self (w : walker) (b : Bool) (hb : b = false) :
    w = { w with closesSession := w.closesSession || b } := by
  cases w; simp [hb]

theorem tracks_of_guard (lhs rhs : List Expr) (tok : String)
    (hg : lhs.length ≠ 1 ∧ rhs.length ≠ 1) : Node.tracks (.stmt (.AssignStmt lhs tok rhs)) = none := by
  unfold Node.tracks
  split
  · rename_i name ls tok2 r0 rs heq
    simp only [Node.stmt.injEq, Stmt.AssignStmt.injEq] at heq
    obtain ⟨h1, _, h3⟩ := heq
    subst h1 h3
    simp only [List.length_cons] at hg
    have : ¬ ((ls.length = 0 ∨ rs.length = 0) ∧ isNewSession r0 = true) := by
      intro h; omega
    rw [if_neg this]
  · rfl

/-- The three things a call of `walker.Visit` on a node can do: record the
session of a session-creating assignment, mark the tracked session closed and
refuse to descend, or descend (a return statement first marking the session
closed when a result is the tracked identifier). -/
theorem Visit_cases (w w1 : walker) (n : Node) (d : Bool) (h : w.Visit (some n) = .ok (w1, d)) :
    (∃ u, n.tracks = some u ∧ w1 = { w with createsSession := true, sessionName := u } ∧ d = false) ∨
    (n.tracks = none ∧ (n.closes w.sessionName = true ∨ n.assignsClose w.sessionName = true) ∧
      w1 = { w with closesSession := true } ∧ d = false) ∨
    (n.tracks = none ∧ d = true ∧
      w1 = { w with closesSession := w.closesSession ||
        (decide (w.sessionName ≠ "") && n.returns w.sessionName) }) := by
  have hdefault : ∀ (m : Node), m.tracks = none → m.returns w.sessionName = false →
      Except.ok (w, true) = (Except.ok (w1, d) : Except Panic (walker × Bool)) →
      (∃ u, m.tracks = some u ∧ w1 = { w with createsSession := true, sessionName := u } ∧ d = false) ∨
      (m.tracks = none ∧ (m.closes w.sessionName = true ∨ m.assignsClose w.sessionName = true) ∧
        w1 = { w with closesSession := true } ∧ d = false) ∨
      (m.tracks = none ∧ d = true ∧
        w1 = { w with closesSession := w.closesSession ||
          (decide (w.sessionName ≠ "") && m.returns w.sessionName) }) := by
    intro m ht hr heq
    simp only [Except.ok.injEq, Prod.mk.injEq] at heq
    refine Or.inr (Or.inr ⟨ht, heq.2.symm, ?_⟩)
    rw [← heq.1]
    exact walker_eq_self w _ (by simp [hr])
  cases n with
  | stmt s =>
    cases s with
    | ExprStmt x =>
      simp only [walker.Visit] at h
      split at h
      · rename_i hc
        simp only [Except.ok.injEq, Prod.mk.injEq] at h
        exact Or.inr (Or.inl ⟨rfl, Or.inl (by simpa [Node.closes] using hc), h.1.symm, h.2.symm⟩)
      · exact hdefault _ rfl rfl h
    | DeferStmt c =>
      simp only [walker.Visit] at h
      split at h
      · rename_i hc
        simp only [Except.ok.injEq, Prod.mk.injEq] at h
        exact Or.inr (Or.inl ⟨rfl, Or.inl (by simpa [Node.closes] using hc), h.1.symm, h.2.symm⟩)
      · exact hdefault _ rfl rfl h
    | ReturnStmt results =>
      simp only [walker.Visit, Except.ok.injEq, Prod.mk.injEq] at h
      refine Or.inr (Or.inr ⟨rfl, h.2.symm, ?_⟩)
      rw [← h.1, foldl_visitResult]
    | AssignStmt lhs tok rhs =>
      simp only [walker.Visit] at h
      split at h
      · rename_i hg
        exact hdefault _ (tracks_of_guard lhs rhs tok hg) rfl h
      · rename_i hg
        cases lhs with
        | nil => simp at h
        | cons l0 ls =>
          cases l0 with
          | Ident name =>
            cases rhs with
            | nil => simp at h
            | cons r0 rs =>
              have hlen : ls.length = 0 ∨ rs.length = 0 := by
                simp only [List.length_cons] at hg
                omega
              simp only [List.getElem?_cons_zero] at h
              by_cases hnew : isNewSession r0 = true
              · simp only [hnew, if_true, Except.ok.injEq, Prod.mk.injEq] at h
                refine Or.inl ⟨name.Name, ?_, h.1.symm, h.2.symm⟩
                show (if (ls.length = 0 ∨ rs.length = 0) ∧ isNewSession r0 = true
                  then some name.Name else none) = some name.Name
                rw [if_pos ⟨hlen, hnew⟩]
              · have htr : Node.tracks (.stmt (.AssignStmt (.Ident name :: ls) tok (r0 :: rs))) = none := by
                  simp [Node.tracks, hnew]
                rw [if_neg hnew] at h
                split at h
                · rename_i hc
                  simp only [Except.ok.injEq, Prod.mk.injEq] at h
                  exact Or.inr (Or.inl ⟨htr, Or.inr (by simpa [Node.assignsClose] using hc),
                    h.1.symm, h.2.symm⟩)
                · exact hdefault _ htr rfl h
          | _ => exact hdefault _ (by simp [Node.tracks]) rfl (by simpa using h)
    | _ => exact hdefault _ rfl rfl (by simpa [walker.Visit] using h)
  | _ => exact hdefault _ rfl rfl (by simpa [walker.Visit] using h)


/-- On a node whose assignment operands are present `walker.Visit` does not
panic. -/
theorem Visit_total (w : walker) (n : Node) (h : n.operandsOk = true) :
    ∃ p, w.Visit (some n) = .ok p := by
  cases n with
  | stmt s =>
    cases s with
    | ExprStmt x => simp only [walker.Visit]; split <;> exact ⟨_, rfl⟩
    | DeferStmt c => simp only [walker.Visit]; split <;> exact ⟨_, rfl⟩
    | ReturnStmt results => exact ⟨_, rfl⟩
    | AssignStmt lhs tok rhs =>
      cases lhs with
      | nil => simp [Node.operandsOk] at h
      | cons l0 ls =>
        cases rhs with
        | nil => simp [Node.operandsOk] at h
        | cons r0 rs =>
          simp only [walker.Visit, List.getElem?_cons_zero]
          split
          · exact ⟨_, rfl⟩
          · cases l0 <;> first | exact ⟨_, rfl⟩ | skip
            simp only
            split
            · exact ⟨_, rfl⟩
            · split <;> exact ⟨_, rfl⟩
    | _ => exact ⟨_, rfl⟩
  | _ => exact ⟨_, rfl⟩

theorem Visit_prune (w w1 : walker) (n : Node) (d : Bool) (hp : n.isTracked = true)
    (h : w.Visit (some n) = .ok (w1, d)) : d = false := by
  unfold Node.isTracked at hp
  obtain ⟨u, hu⟩ := Option.isSome_iff_exists.1 hp
  rw [Visit_tracks w n u hu] at h
  simp only [Except.ok.injEq, Prod.mk.injEq] at h
  exact h.2.symm

theorem Visit_skip (w w1 : walker) (n : Node) (h : w.Visit (some n) = .ok (w1, false)) :
    n.isTracked = true ∨ w1.closesSession = true := by
  rcases Visit_cases w w1 n false h with ⟨u, hu, _, _⟩ | ⟨_, _, hw, _⟩ | ⟨_, hd, _⟩
  · left; simp [Node.isTracked, hu]
  · right; rw [hw]
  · cases hd

theorem Visit_closed (w w1 : walker) (n : Node) (d : Bool) (hc : w.closesSession = true)
    (h : w.Visit (some n) = .ok (w1, d)) : w1.closesSession = true := by
  rcases Visit_cases w w1 n d h with ⟨u, _, hw, _⟩ | ⟨_, _, hw, _⟩ | ⟨_, _, hw⟩
  · rw [hw]; exact hc
  · rw [hw]
  · rw [hw]; simp [hc]

/-- What a call of `walker.Visit` does at a statement `v.Close()` or
`defer v.Close()` while the session `v` is tracked. -/
theorem Visit_closes (w : walker) (n : Node) (h : n.closes w.sessionName = true) :
    w.Visit (some n) = .ok ({ w with closesSession := true }, false) := by
  cases n with
  | stmt s =>
    cases s with
    | ExprStmt x =>
      simp only [Node.closes] at h
      simp [walker.Visit, h]
    | DeferStmt c =>
      simp only [Node.closes] at h
      simp [walker.Visit, h]
    | _ => simp [Node.closes] at h
  | _ => simp [Node.closes] at h

theorem preorder_subset (prune : Node → Bool) :
    ∀ (n m : Node), m ∈ preorder prune n → m ∈ subnodes n := by
  suffices H : ∀ (k : Nat) (n : Node), n.size = k → ∀ m, m ∈ preorder prune n → m ∈ subnodes n
    from fun n => H n.size n rfl
  intro k
  induction k using Nat.strong_induction_on with
  | _ k ih =>
    intro n hsz m hm
    rw [preorder_eq] at hm
    unfold subnodes
    rw [preorder_eq]
    rcases List.mem_cons.1 hm with hm | hm
    · subst hm; exact List.mem_cons_self _ _
    · apply List.mem_cons_of_mem
      cases hp : prune n with
      | true => simp [hp] at hm
      | false =>
        simp only [hp] at hm
        obtain ⟨c, hc, hmc⟩ := List.mem_flatMap.1 hm
        have hlt := Node.size_child_lt hc
        have := ih c.size (by omega) c rfl m hmc
        simp only [Bool.false_eq_true, if_false]
        exact List.mem_flatMap.2 ⟨c, hc, this⟩

theorem mem_subnodes_trans :
    ∀ (m n c : Node), n ∈ subnodes m → c ∈ subnodes n → c ∈ subnodes m := by
  suffices H : ∀ (k : Nat) (m : Node), m.size = k → ∀ n c, n ∈ subnodes m → c ∈ subnodes n →
      c ∈ subnodes m from fun m => H m.size m rfl
  intro k
  induction k using Nat.strong_induction_on with
  | _ k ih =>
    intro m hsz n c hn hc
    unfold subnodes at hn
    rw [preorder_eq] at hn
    rcases List.mem_cons.1 hn with hn | hn
    · subst hn; exact hc
    · simp only [Bool.false_eq_true, if_false] at hn
      obtain ⟨c1, hc1, hn1⟩ := List.mem_flatMap.1 hn
      have hlt := Node.size_child_lt hc1
      have := ih c1.size (by omega) c1 rfl n c hn1 hc
      exact mem_preorder_of_child rfl hc1 this

theorem mem_subnodes_of_child {n c m : Node} (hc : c ∈ n.children) (hn : n ∈ subnodes m) :
    c ∈ subnodes m :=
  mem_subnodes_trans m n c hn (mem_preorder_of_child rfl hc (mem_preorder_self _ c))

/-- The first right-hand operand of a session-creating assignment is a node
below it, of the shape `x.NewSession(...)`. -/
theorem tracks_child (n : Node) (u : String) (h : n.tracks = some u) :
    ∃ e, Node.expr e ∈ n.children ∧ isNewSession e = true := by
  unfold Node.tracks at h
  split at h
  · rename_i name ls tok r0 rs
    split at h
    · rename_i hc
      refine ⟨r0, ?_, hc.2⟩
      simp [Node.children, Stmt.children]
    · cases h
  · cases h

theorem closes_empty (n : Node) : n.closes "" = false := by
  cases n with
  | stmt s => cases s <;> simp [Node.closes, isCloseSessionExpr]
  | _ => rfl

theorem assignsClose_empty (n : Node) : n.assignsClose "" = false := by
  unfold Node.assignsClose
  split
  · simp [isCloseSessionExpr]
  · rfl

/-! ### The analysis of a function declaration -/

theorem formatFunctionName_ok (formatNode : Expr → String) (fd : FuncDecl)
    (h : fd.recvOk formatNode = true) : ∃ fnname, formatFunctionName formatNode fd = .ok fnname := by
  unfold FuncDecl.recvOk at h
  unfold formatFunctionName
  split at h
  · rename_i hr
    simp only [hr]
    exact ⟨_, rfl⟩
  · rename_i names t tag hr
    simp only [hr]
    have hn : (FieldList.mk [Field.mk names (some t) tag]).NumFields = 1 := by
      simp only [decide_eq_true_eq] at h
      have := h.1
      simp only [FieldList.NumFields, FieldList.list, List.foldl_cons, List.foldl_nil, Field.Names]
      split <;> omega
    simp only [hn, FieldList.list, Field.Typ]
    simp only [decide_eq_true_eq] at h
    have hne : (formatNode t).data ≠ [] := by
      intro hd
      apply h.2
      cases hf : formatNode t with
      | mk l => rw [hf] at hd; simp at hd; subst hd; rfl
    cases hd : (formatNode t).data with
    | nil => exact absurd hd hne
    | cons c rest => simp [hd]
  · cases h


theorem wellFormed_body (formatNode : Expr → String) (fd : FuncDecl)
    (h : fd.wellFormed formatNode = true) : ∃ b, fd.Body = some b := by
  simp only [FuncDecl.wellFormed, Bool.and_eq_true] at h
  exact Option.isSome_iff_exists.1 h.1.2

theorem wellFormed_operands (formatNode : Expr → String) (fd : FuncDecl)
    (h : fd.wellFormed formatNode = true) : ∀ n ∈ fd.walkOrder, n.operandsOk = true := by
  simp only [FuncDecl.wellFormed, Bool.and_eq_true, List.all_eq_true] at h
  intro n hn
  exact h.2 n (preorder_subset _ _ n hn)

theorem WalkBody_eq (fd : FuncDecl) (b : BlockStmt) (hb : fd.Body = some b) (w : walker) :
    WalkBody walker.Visit w fd.Body = Walk walker.Visit w fd.bodyNode := by
  simp [WalkBody, FuncDecl.bodyNode, hb]

/-- The walk of the body of a well-formed declaration does not panic, and it
either ends with the session marked closed or has called `Visit` on exactly
the nodes of `walkOrder`, in that order. -/
theorem walk_wellFormed (formatNode : Expr → String) (fd : FuncDecl)
    (hwf : fd.wellFormed formatNode = true) (w0 : walker) :
    ∃ w, WalkBody walker.Visit w0 fd.Body = .ok w ∧
      (w.closesSession = true ∨ visitAll walker.Visit w0 fd.walkOrder = .ok w) := by
  obtain ⟨b, hb⟩ := wellFormed_body formatNode fd hwf
  rw [WalkBody_eq fd b hb]
  exact Walk_fold walker.Visit Node.isTracked (fun w => w.closesSession = true)
    (fun s => ⟨false, rfl⟩)
    (fun s n s1 d hp h => Visit_prune s s1 n d hp h)
    (fun s n s1 h => Visit_skip s s1 n h)
    (fun s n s1 d hd h => Visit_closed s s1 n d hd h)
    fd.bodyNode w0
    (fun m hm s => Visit_total s m (wellFormed_operands formatNode fd hwf m hm))

/-- A property of the walker that every call of `Visit` on a node of the body
keeps holds at the end of the walk of a well-formed declaration. -/
theorem walk_inv_wellFormed (formatNode : Expr → String) (fd : FuncDecl)
    (hwf : fd.wellFormed formatNode = true) (I : walker → Prop)
    (hI : ∀ m ∈ fd.walkOrder, ∀ (w w1 : walker) (d : Bool), I w →
      w.Visit (some m) = .ok (w1, d) → I w1)
    (w0 : walker) (h0 : I w0) :
    ∃ w, WalkBody walker.Visit w0 fd.Body = .ok w ∧ I w := by
  obtain ⟨b, hb⟩ := wellFormed_body formatNode fd hwf
  rw [WalkBody_eq fd b hb]
  refine Walk_inv walker.Visit Node.isTracked I (fun s => ⟨false, rfl⟩)
    (fun s n s1 d hp h => Visit_prune s s1 n d hp h) fd.bodyNode w0 ?_ h0
  intro m hm s hs
  obtain ⟨⟨s1, d⟩, h1⟩ := Visit_total s m (wellFormed_operands formatNode fd hwf m hm)
  exact ⟨s1, d, h1, hI m hm s s1 d hs h1⟩

/-- The verdict of `checkFuncDecl` from the walker at the end of the walk. -/
theorem checkFuncDecl_of_walk (formatNode : Expr → String) (fname : String) (fd : FuncDecl)
    (diags : List Diagnostic) (fnname : String) (w : walker)
    (hn : formatFunctionName formatNode fd = .ok fnname)
    (hw : WalkBody walker.Visit (walker.init fname fnname) fd.Body = .ok w) :
    checkFuncDecl formatNode fname fd diags =
      .ok (if w.createsSession = true ∧ w.closesSession = false ∧
            (w.sessionName = "" ∨ fnDeclHasNamedReturn fd w.sessionName = false)
          then diags ++ [{ Pos := fd.Pos, Message := fnname ++ " opens session but does not close it" }]
          else diags) := by
  unfold walker.init at hw
  simp only [checkFuncDecl, hn, hw]
  cases w with
  | mk f1 f2 cr cl nm =>
    cases cr <;> cases cl <;> by_cases hnm : nm = "" <;>
      cases hr : fnDeclHasNamedReturn fd nm <;>
      simp [walker.HasUnclosedSession, hnm, hr]

theorem visitAll_cons_ok {σ : Type} {visit : σ → Option Node → Except Panic (σ × Bool)} {s s2 : σ}
    {n : Node} {ns : List Node} (h : visitAll visit s (n :: ns) = .ok s2) :
    ∃ s1 d, visit s (some n) = .ok (s1, d) ∧ visitAll visit s1 ns = .ok s2 := by
  rw [visitAll_cons] at h
  cases hv : visit s (some n) with
  | error e => rw [hv] at h; cases h
  | ok p =>
    obtain ⟨s1, d⟩ := p
    rw [hv] at h
    exact ⟨s1, d, rfl, h⟩

theorem visitAll_append_ok {σ : Type} {visit : σ → Option Node → Except Panic (σ × Bool)}
    {s s2 : σ} {l r : List Node} (h : visitAll visit s (l ++ r) = .ok s2) :
    ∃ s1, visitAll visit s l = .ok s1 ∧ visitAll visit s1 r = .ok s2 := by
  rw [visitAll_append] at h
  cases hv : visitAll visit s l with
  | error e => rw [hv] at h; cases h
  | ok s1 =>
    rw [hv] at h
    exact ⟨s1, rfl, h⟩

theorem visitAll_inv {σ : Type} (visit : σ → Option Node → Except Panic (σ × Bool))
    (I : σ → Prop) (ns : List Node)
    (hI : ∀ n ∈ ns, ∀ (s s1 : σ) (d : Bool), I s → visit s (some n) = .ok (s1, d) → I s1) :
    ∀ (s s2 : σ), I s → visitAll visit s ns = .ok s2 → I s2 := by
  induction ns with
  | nil =>
    intro s s2 hs h
    rw [visitAll_nil] at h
    cases h
    exact hs
  | cons n ns ih =>
    intro s s2 hs h
    obtain ⟨s1, d, hv, hrest⟩ := visitAll_cons_ok h
    exact ih (fun m hm => hI m (List.mem_cons_of_mem n hm)) s1 s2
      (hI n (List.mem_cons_self n ns) s s1 d hs hv) hrest


theorem wellFormed_recv (formatNode : Expr → String) (fd : FuncDecl)
    (h : fd.wellFormed formatNode = true) : fd.recvOk formatNode = true := by
  simp only [FuncDecl.wellFormed, Bool.and_eq_true] at h
  exact h.1.1

theorem Visit_creates (w w1 : walker) (n : Node) (d : Bool) (hc : w.createsSession = true)
    (h : w.Visit (some n) = .ok (w1, d)) : w1.createsSession = true := by
  rcases Visit_cases w w1 n d h with ⟨u, _, hw, _⟩ | ⟨_, _, hw, _⟩ | ⟨_, _, hw⟩
  · rw [hw]
  · rw [hw]; exact hc
  · rw [hw]; exact hc

/-- After the calls of `Visit` on a list of nodes that contains a
session-creating assignment, `createsSession` is set. -/
theorem visitAll_creates (ns : List Node) (w0 w : walker) (hex : ∃ n ∈ ns, n.isTracked = true)
    (h : visitAll walker.Visit w0 ns = .ok w) : w.createsSession = true := by
  obtain ⟨n, hn, ht⟩ := hex
  obtain ⟨pre, post, rfl⟩ := List.append_of_mem hn
  obtain ⟨w1, _, h2⟩ := visitAll_append_ok h
  obtain ⟨w2, d, hv, h3⟩ := visitAll_cons_ok h2
  obtain ⟨u, hu⟩ := Option.isSome_iff_exists.1 ht
  rw [Visit_tracks w1 n u hu] at hv
  simp only [Except.ok.injEq, Prod.mk.injEq] at hv
  refine visitAll_inv walker.Visit (fun w => w.createsSession = true) post
    (fun m _ s s1 d hs hvis => Visit_creates s s1 m d hs hvis) w2 w ?_ h3
  rw [← hv.1]

theorem fnDeclHasNamedReturn_mem (fd : FuncDecl) (v : String)
    (h : fnDeclHasNamedReturn fd v = true) : v ∈ fd.resultNames := by
  unfold fnDeclHasNamedReturn at h
  unfold FuncDecl.resultNames
  split at h
  · cases h
  · rename_i results hr
    obtain ⟨f, hf, hfv⟩ := List.any_eq_true.1 h
    refine List.mem_flatMap.2 ⟨f, hf, ?_⟩
    split at hfv
    · rename_i id hid
      simp only [decide_eq_true_eq] at hfv
      rw [hid]
      simp [hfv]
    · cases hfv

/-- C1 (amended): a function declaration of the target package that creates
a session in the variable `v` (a session-creating assignment to `v` is met by
the walk, and every session-creating assignment is to `v`), has no statement
`v.Close(...)`, `defer v.Close(...)` or assignment from `v.Close(...)`, has no
return statement with the bare result `v`, and has no result parameter named
`v`, gets exactly one diagnostic, whose message starts with the qualified
name of the function. -/
theorem checkFuncDecl_reports_leak (formatNode : Expr → String) (fname : String) (fd : FuncDecl)
    (diags : List Diagnostic) (v : String)
    (hwf : fd.wellFormed formatNode = true)
    (hcreate : ∃ n ∈ fd.walkOrder, n.tracks = some v)
    (honly : ∀ n ∈ fd.walkOrder, n.tracks = none ∨ n.tracks = some v)
    (hnoclose : ∀ n ∈ fd.walkOrder, n.closes v = false ∧ n.assignsClose v = false)
    (hnoret : ∀ n ∈ fd.walkOrder, n.returns v = false)
    (hres : v ∉ fd.resultNames) :
    ∃ fnname, formatFunctionName formatNode fd = .ok fnname ∧
      checkFuncDecl formatNode fname fd diags =
        .ok (diags ++ [{ Pos := fd.Pos, Message := fnname ++ " opens session but does not close it" }]) := by
  obtain ⟨fnname, hn⟩ := formatFunctionName_ok formatNode fd (wellFormed_recv formatNode fd hwf)
  refine ⟨fnname, hn, ?_⟩
  obtain ⟨w, hw, hcl, hnm⟩ := walk_inv_wellFormed formatNode fd hwf
    (fun w => w.closesSession = false ∧ (w.sessionName = "" ∨ w.sessionName = v))
    (by
      intro m hm w w1 d hI hv
      obtain ⟨hcl, hnm⟩ := hI
      rcases Visit_cases w w1 m d hv with ⟨u, hu, hw1, _⟩ | ⟨_, hc, hw1, _⟩ | ⟨_, _, hw1⟩
      · rw [hw1]
        refine ⟨hcl, Or.inr ?_⟩
        rcases honly m hm with h | h
        · rw [h] at hu; cases hu
        · rw [h] at hu; cases hu; rfl
      · exfalso
        rcases hnm with h | h
        · rw [h, closes_empty, assignsClose_empty] at hc
          simp at hc
        · rw [h, (hnoclose m hm).1, (hnoclose m hm).2] at hc
          simp at hc
      · rw [hw1]
        refine ⟨?_, hnm⟩
        rcases hnm with h | h
        · simp [hcl, h]
        · simp [hcl, h, hnoret m hm])
    (walker.init fname fnname) ⟨rfl, Or.inl rfl⟩
  obtain ⟨w2, hw2, hor⟩ := walk_wellFormed formatNode fd hwf (walker.init fname fnname)
  rw [hw] at hw2
  cases hw2
  have hfold : visitAll walker.Visit (walker.init fname fnname) fd.walkOrder = .ok w := by
    rcases hor with h | h
    · rw [hcl] at h; cases h
    · exact h
  have hcr : w.createsSession = true := by
    refine visitAll_creates fd.walkOrder _ w ?_ hfold
    obtain ⟨n, hn1, hn2⟩ := hcreate
    exact ⟨n, hn1, by simp [Node.isTracked, hn2]⟩
  have hret : w.sessionName = "" ∨ fnDeclHasNamedReturn fd w.sessionName = false := by
    rcases hnm with h | h
    · exact Or.inl h
    · right
      rw [h]
      cases hr : fnDeclHasNamedReturn fd v with
      | false => rfl
      | true => exact absurd (fnDeclHasNamedReturn_mem fd v hr) hres
  rw [checkFuncDecl_of_walk formatNode fname fd diags fnname w hn hw, if_pos ⟨hcr, hcl, hret⟩]


/-- C1 (amended), at `exBar`: the leak of `Bar` is reported. -/
theorem checkFuncDecl_reports_leak_witness :
    ∃ fnname, formatFunctionName renderType exBar = .ok fnname ∧
      checkFuncDecl renderType "bar.go" exBar [] =
        .ok ([] ++ [{ Pos := exBar.Pos, Message := fnname ++ " opens session but does not close it" }]) :=
  checkFuncDecl_reports_leak renderType "bar.go" exBar [] "sess" (by decide) (by decide) (by decide)
    (by decide) (by decide) (by decide)

/-- C1, as stated, fails at `exOpen`: the function creates a session in
`sess`, has no `sess.Close()` anywhere and no named result, and gets no
diagnostic, because it returns `sess`. -/
theorem checkFuncDecl_leak_counterexample :
    (∃ n ∈ exOpen.walkOrder, n.tracks = some "sess") ∧
    (∀ n ∈ exOpen.bodyNodes, n.closes "sess" = false ∧ n.assignsClose "sess" = false) ∧
    exOpen.resultNames = [] ∧
    checkFuncDecl renderType "open.go" exOpen [] = .ok [] :=
  ⟨by decide, by decide, by decide, by rfl⟩


theorem fnDeclHasNamedReturn_of_field (fd : FuncDecl) (v : String) (results : FieldList)
    (hr : fd.Typ.Results = some results) (hf : ∃ f ∈ results.list, f.Names = [⟨v⟩]) :
    fnDeclHasNamedReturn fd v = true := by
  unfold fnDeclHasNamedReturn
  rw [hr]
  obtain ⟨f, hf, hn⟩ := hf
  exact List.any_eq_true.2 ⟨f, hf, by simp [hn]⟩

/-- C2 (amended): a function declaration all of whose session-creating
assignments are to the variable `v`, and which declares a result field whose
only name is `v`, gets no diagnostic, whether or not it closes the session. -/
theorem checkFuncDecl_named_result (formatNode : Expr → String) (fname : String) (fd : FuncDecl)
    (diags : List Diagnostic) (v : String) (results : FieldList)
    (hwf : fd.wellFormed formatNode = true)
    (hv : v ≠ "")
    (honly : ∀ n ∈ fd.walkOrder, n.tracks = none ∨ n.tracks = some v)
    (hr : fd.Typ.Results = some results)
    (hf : ∃ f ∈ results.list, f.Names = [⟨v⟩]) :
    checkFuncDecl formatNode fname fd diags = .ok diags := by
  obtain ⟨fnname, hn⟩ := formatFunctionName_ok formatNode fd (wellFormed_recv formatNode fd hwf)
  obtain ⟨w, hw, hI⟩ := walk_inv_wellFormed formatNode fd hwf
    (fun w => w.createsSession = true → w.sessionName = v)
    (by
      intro m hm w w1 d hI hvis
      rcases Visit_cases w w1 m d hvis with ⟨u, hu, hw1, _⟩ | ⟨_, _, hw1, _⟩ | ⟨_, _, hw1⟩
      · rw [hw1]
        intro _
        rcases honly m hm with h | h
        · rw [h] at hu; cases hu
        · rw [h] at hu; cases hu; rfl
      · rw [hw1]; exact hI
      · rw [hw1]; exact hI)
    (walker.init fname fnname) (by intro h; cases h)
  rw [checkFuncDecl_of_walk formatNode fname fd diags fnname w hn hw, if_neg]
  rintro ⟨hcr, _, hret⟩
  have hnm := hI hcr
  rw [hnm, fnDeclHasNamedReturn_of_field fd v results hr hf] at hret
  rcases hret with h | h
  · exact hv h
  · cases h

/-- C2 (amended), at `exLoad`: the named result `sess` of `Load`. -/
theorem checkFuncDecl_named_result_witness :
    checkFuncDecl renderType "load.go" exLoad [] = .ok [] :=
  checkFuncDecl_named_result renderType "load.go" exLoad [] "sess"
    (.mk [.mk [⟨"sess"⟩] (some sessionPtr) none]) (by decide) (by decide) (by decide) rfl
    ⟨_, List.mem_cons_self _ _, rfl⟩

/-- C2, as stated, fails at `exBoth`: the function creates a session in
`sess`, has no `sess.Close()`, and declares the named result `sess`; the
session tracked at the end of the walk is the later `tmp`, which is no result,
and the function gets a diagnostic. -/
theorem checkFuncDecl_named_result_counterexample :
    (∃ n ∈ exBoth.walkOrder, n.tracks = some "sess") ∧
    (∀ n ∈ exBoth.bodyNodes, n.closes "sess" = false ∧ n.assignsClose "sess" = false) ∧
    exBoth.resultNames = ["sess"] ∧
    checkFuncDecl renderType "both.go" exBoth [] =
      .ok [{ Pos := 120, Message := "Both opens session but does not close it" }] :=
  ⟨by decide, by decide, by decide, by rfl⟩

/-- At `exPair`, whose result field `(sess, other *Session)` groups two names,
`fnDeclHasNamedReturn` does not find `sess` and the function gets a
diagnostic. -/
theorem checkFuncDecl_grouped_result :
    fnDeclHasNamedReturn exPair "sess" = false ∧
    checkFuncDecl renderType "pair.go" exPair [] =
      .ok [{ Pos := 60, Message := "Pair opens session but does not close it" }] :=
  ⟨by decide, by rfl⟩

/-- C5: a function declaration whose body contains no expression of the
shape `x.NewSession(...)` gets no diagnostic. -/
theorem checkFuncDecl_no_session (formatNode : Expr → String) (fname : String) (fd : FuncDecl)
    (diags : List Diagnostic)
    (hwf : fd.wellFormed formatNode = true)
    (hno : ∀ n ∈ fd.bodyNodes, n.isNewSessionExpr = false) :
    checkFuncDecl formatNode fname fd diags = .ok diags := by
  obtain ⟨fnname, hn⟩ := formatFunctionName_ok formatNode fd (wellFormed_recv formatNode fd hwf)
  obtain ⟨w, hw, hI⟩ := walk_inv_wellFormed formatNode fd hwf
    (fun w => w.createsSession = false)
    (by
      intro m hm w w1 d hI hvis
      rcases Visit_cases w w1 m d hvis with ⟨u, hu, hw1, _⟩ | ⟨_, _, hw1, _⟩ | ⟨_, _, hw1⟩
      · exfalso
        obtain ⟨e, he, hnew⟩ := tracks_child m u hu
        have hmem : Node.expr e ∈ fd.bodyNodes :=
          mem_subnodes_of_child he (preorder_subset _ _ m hm)
        have := hno _ hmem
        simp only [Node.isNewSessionExpr] at this
        rw [this] at hnew
        cases hnew
      · rw [hw1]; exact hI
      · rw [hw1]; exact hI)
    (walker.init fname fnname) rfl
  rw [checkFuncDecl_of_walk formatNode fname fd diags fnname w hn hw, if_neg]
  rintro ⟨hcr, _, _⟩
  rw [hI] at hcr
  cases hcr

/-- C5, at `exPlain`: closes and returns without a session creation. -/
theorem checkFuncDecl_no_session_witness :
    checkFuncDecl renderType "plain.go" exPlain [] = .ok [] :=
  checkFuncDecl_no_session renderType "plain.go" exPlain [] (by decide) (by decide)


theorem tracks_sessionAssign (v tok : String) (args : List Expr) :
    Node.tracks (.stmt (sessionAssign v tok args)) = some v := by
  simp [Node.tracks, sessionAssign, ident, methodCall, methodCallExpr, isNewSession, CallExpr.Fun]

theorem closes_deferClose (v : String) (args : List Expr) (hv : v ≠ "") :
    Node.closes v (.stmt (deferClose v args)) = true := by
  simp [Node.closes, deferClose, ident, methodCallExpr, isCloseSessionExpr, CallExpr.Fun, hv]

theorem closes_closeStmt (v : String) (args : List Expr) (hv : v ≠ "") :
    Node.closes v (.stmt (closeStmt v args)) = true := by
  simp [Node.closes, closeStmt, ident, methodCall, methodCallExpr, isCloseSessionExpr,
    CallExpr.Fun, hv]

/-- After the calls of `Visit` on a list of nodes in which a statement that
closes `v` follows a session-creating assignment to `v`, with no
session-creating assignment to another variable between the two, the session
is marked closed. -/
theorem visitAll_closed_after (pre mid post : List Node) (a c : Node) (v : String) (w0 w : walker)
    (ha : a.tracks = some v) (hmid : ∀ n ∈ mid, n.tracks = none ∨ n.tracks = some v)
    (hc : c.closes v = true)
    (h : visitAll walker.Visit w0 (pre ++ a :: (mid ++ c :: post)) = .ok w) :
    w.closesSession = true := by
  obtain ⟨w1, _, h1⟩ := visitAll_append_ok h
  obtain ⟨w2, d2, hv2, h2⟩ := visitAll_cons_ok h1
  rw [Visit_tracks w1 a v ha] at hv2
  simp only [Except.ok.injEq, Prod.mk.injEq] at hv2
  obtain ⟨w3, h3, h4⟩ := visitAll_append_ok h2
  have hname : w3.sessionName = v := by
    refine visitAll_inv walker.Visit (fun w => w.sessionName = v) mid ?_ w2 w3 ?_ h3
    · intro m hm s s1 d hs hvis
      rcases Visit_cases s s1 m d hvis with ⟨u, hu, hw1, _⟩ | ⟨_, _, hw1, _⟩ | ⟨_, _, hw1⟩
      · rw [hw1]
        rcases hmid m hm with h | h
        · rw [h] at hu; cases hu
        · rw [h] at hu; cases hu; rfl
      · rw [hw1]; exact hs
      · rw [hw1]; exact hs
    · rw [← hv2.1]
  obtain ⟨w4, d4, hv4, h5⟩ := visitAll_cons_ok h4
  rw [Visit_closes w3 c (by rw [hname]; exact hc)] at hv4
  simp only [Except.ok.injEq, Prod.mk.injEq] at hv4
  refine visitAll_inv walker.Visit (fun w => w.closesSession = true) post
    (fun m _ s s1 d hs hvis => Visit_closed s s1 m d hs hvis) w4 w ?_ h5
  rw [← hv4.1]

theorem checkFuncDecl_closed_after (formatNode : Expr → String) (fname : String) (fd : FuncDecl)
    (diags : List Diagnostic) (v : String) (pre mid post : List Node) (a c : Node)
    (hwf : fd.wellFormed formatNode = true)
    (horder : fd.walkOrder = pre ++ a :: (mid ++ c :: post))
    (ha : a.tracks = some v) (hmid : ∀ n ∈ mid, n.tracks = none ∨ n.tracks = some v)
    (hc : c.closes v = true) :
    checkFuncDecl formatNode fname fd diags = .ok diags := by
  obtain ⟨fnname, hn⟩ := formatFunctionName_ok formatNode fd (wellFormed_recv formatNode fd hwf)
  obtain ⟨w, hw, hor⟩ := walk_wellFormed formatNode fd hwf (walker.init fname fnname)
  have hcl : w.closesSession = true := by
    rcases hor with h | h
    · exact h
    · rw [horder] at h
      exact visitAll_closed_after pre mid post a c v _ w ha hmid hc h
  rw [checkFuncDecl_of_walk formatNode fname fd diags fnname w hn hw, if_neg]
  rintro ⟨_, h, _⟩
  rw [hcl] at h
  cases h

/-- C3 (amended): a function declaration in whose body a statement
`defer v.Close(...)` is met by the walk after a session-creating assignment to
`v`, with no session-creating assignment to another variable between the
two, gets no diagnostic. -/
theorem checkFuncDecl_defer_close (formatNode : Expr → String) (fname : String) (fd : FuncDecl)
    (diags : List Diagnostic) (v tok : String) (newArgs closeArgs : List Expr)
    (pre mid post : List Node)
    (hwf : fd.wellFormed formatNode = true)
    (hv : v ≠ "")
    (horder : fd.walkOrder =
      pre ++ .stmt (sessionAssign v tok newArgs) :: (mid ++ .stmt (deferClose v closeArgs) :: post))
    (hmid : ∀ n ∈ mid, n.tracks = none ∨ n.tracks = some v) :
    checkFuncDecl formatNode fname fd diags = .ok diags :=
  checkFuncDecl_closed_after formatNode fname fd diags v pre mid post _ _ hwf horder
    (tracks_sessionAssign v tok newArgs) hmid (closes_deferClose v closeArgs hv)

/-- C3 (amended), at `exFoo`: the deferred close of `Foo`. -/
theorem checkFuncDecl_defer_close_witness :
    checkFuncDecl renderType "foo.go" exFoo [] = .ok [] :=
  checkFuncDecl_defer_close renderType "foo.go" exFoo [] "sess" ":=" [] []
    (exFoo.walkOrder.take 1) [] (exFoo.walkOrder.drop 3) (by decide) (by decide) (by rfl)
    (by decide)

/-- C3, as stated, fails at `exEarly`: the body creates a session in `sess`
and contains `defer sess.Close()`, before the assignment; the function gets a
diagnostic. -/
theorem checkFuncDecl_defer_close_counterexample :
    (∃ n ∈ exEarly.walkOrder, n.tracks = some "sess") ∧
    (∃ n ∈ exEarly.walkOrder, n.closes "sess" = true) ∧
    checkFuncDecl renderType "early.go" exEarly [] =
      .ok [{ Pos := 70, Message := "Early opens session but does not close it" }] :=
  ⟨by decide, by decide, by rfl⟩

/-- C4: a function declaration in whose body an expression statement
`v.Close(...)`, at any depth, is met by the walk after the session-creating
assignment to `v` (the only one, or at least with no session-creating
assignment to another variable between the two) gets no diagnostic. -/
theorem checkFuncDecl_direct_close (formatNode : Expr → String) (fname : String) (fd : FuncDecl)
    (diags : List Diagnostic) (v tok : String) (newArgs closeArgs : List Expr)
    (pre mid post : List Node)
    (hwf : fd.wellFormed formatNode = true)
    (hv : v ≠ "")
    (horder : fd.walkOrder =
      pre ++ .stmt (sessionAssign v tok newArgs) :: (mid ++ .stmt (closeStmt v closeArgs) :: post))
    (hmid : ∀ n ∈ mid, n.tracks = none ∨ n.tracks = some v) :
    checkFuncDecl formatNode fname fd diags = .ok diags :=
  checkFuncDecl_closed_after formatNode fname fd diags v pre mid post _ _ hwf horder
    (tracks_sessionAssign v tok newArgs) hmid (closes_closeStmt v closeArgs hv)

/-- C4, at `exBaz`: the close in one branch of the `if` of `Baz`. -/
theorem checkFuncDecl_direct_close_witness :
    checkFuncDecl renderType "baz.go" exBaz [] = .ok [] :=
  checkFuncDecl_direct_close renderType "baz.go" exBaz [] "sess" ":=" [] []
    (exBaz.walkOrder.take 1) ((exBaz.walkOrder.drop 2).take 3) (exBaz.walkOrder.drop 6)
    (by decide) (by decide) (by rfl) (by decide)


/-- C6 (amended): the last session-creating assignment wins. After a second
session-creating assignment `b := x.NewSession()` the tracked name is `b`,
whatever was tracked before; a statement `b.Close(...)` or
`defer b.Close(...)` that the walk meets later (no session-creating
assignment to another variable between the two) marks the session closed,
and the function gets no diagnostic. -/
theorem checkFuncDecl_last_session (formatNode : Expr → String) (fname : String) (fd : FuncDecl)
    (diags : List Diagnostic) (a b tok1 tok2 : String) (args1 args2 : List Expr)
    (pre mid1 mid2 post : List Node) (c : Node)
    (hwf : fd.wellFormed formatNode = true)
    (horder : fd.walkOrder =
      pre ++ .stmt (sessionAssign a tok1 args1) ::
        (mid1 ++ .stmt (sessionAssign b tok2 args2) :: (mid2 ++ c :: post)))
    (hmid : ∀ n ∈ mid2, n.tracks = none ∨ n.tracks = some b)
    (hc : c.closes b = true) :
    (∀ w : walker, w.Visit (some (.stmt (sessionAssign b tok2 args2))) =
      .ok ({ w with createsSession := true, sessionName := b }, false)) ∧
    checkFuncDecl formatNode fname fd diags = .ok diags := by
  refine ⟨fun w => Visit_tracks w _ b (tracks_sessionAssign b tok2 args2), ?_⟩
  refine checkFuncDecl_closed_after formatNode fname fd diags b
    (pre ++ .stmt (sessionAssign a tok1 args1) :: mid1) mid2 post _ c hwf ?_
    (tracks_sessionAssign b tok2 args2) hmid hc
  rw [horder]
  simp

/-- C6 (amended), at `exTwoB`: two sessions, the second one closed. -/
theorem checkFuncDecl_last_session_witness :
    (∀ w : walker, w.Visit (some (.stmt (sessionAssign "b" ":=" []))) =
      .ok ({ w with createsSession := true, sessionName := "b" }, false)) ∧
    checkFuncDecl renderType "twob.go" exTwoB [] = .ok [] :=
  checkFuncDecl_last_session renderType "twob.go" exTwoB [] "a" "b" ":=" ":=" [] []
    (exTwoB.walkOrder.take 1) [] [] (exTwoB.walkOrder.drop 4) (.stmt (deferClose "b" []))
    (by decide) (by rfl) (by decide) (by decide)

/-- C6, as stated, fails at `exTwo`: after `a := x.NewSession()` and
`b := x.NewSession()` the tracked name is `b`, the later `a.Close()` does not
mark the session closed, and the function gets a diagnostic. -/
theorem checkFuncDecl_first_session_counterexample :
    WalkBody walker.Visit (walker.init "two.go" "Two") exTwo.Body =
      .ok { fname := "two.go", fnname := "Two", createsSession := true, closesSession := false,
            sessionName := "b" } ∧
    checkFuncDecl renderType "two.go" exTwo [] =
      .ok [{ Pos := 80, Message := "Two opens session but does not close it" }] :=
  ⟨by rfl, by rfl⟩

/-- C7 (amended): an assignment neither side of which has exactly one
operand is not inspected: `walker.Visit` leaves the walker unchanged and the
walk goes on into the operands. -/
theorem Visit_assign_not_inspected (w : walker) (lhs rhs : List Expr) (tok : String)
    (hl : lhs.length ≠ 1) (hr : rhs.length ≠ 1) :
    w.Visit (some (.stmt (.AssignStmt lhs tok rhs))) = .ok (w, true) := by
  simp only [walker.Visit]
  rw [if_pos ⟨hl, hr⟩]

/-- C7 (amended), at `a, b := x.NewSession(), 1`. -/
theorem Visit_assign_not_inspected_witness :
    (walker.init "qux.go" "Qux").Visit (some (.stmt exQuxAssign)) =
      .ok (walker.init "qux.go" "Qux", true) :=
  Visit_assign_not_inspected (walker.init "qux.go" "Qux") _ _ ":=" (by decide) (by decide)

/-- C7, as stated, fails at `sess, err := x.NewSession()`: the left-hand side
has two operands, and `walker.Visit` records the session `sess`. -/
theorem Visit_assign_counterexample :
    exSessErr = .AssignStmt [ident "sess", ident "err"] ":=" [methodCall "x" "NewSession" []] ∧
    [ident "sess", ident "err"].length ≠ 1 ∧
    (walker.init "f.go" "F").Visit (some (.stmt exSessErr)) =
      .ok ({ fname := "f.go", fnname := "F", createsSession := true, closesSession := false,
             sessionName := "sess" }, false) :=
  ⟨rfl, by decide, by rfl⟩

/-- C8 (amended): whenever `checkFuncDecl` reports a function, the diagnostic
is at the position of the declaration and its message is the qualified name
followed by ` opens session but does not close it`, with no full stop. -/
theorem checkFuncDecl_diagnostic (formatNode : Expr → String) (fname : String) (fd : FuncDecl)
    (diags diags1 : List Diagnostic)
    (h : checkFuncDecl formatNode fname fd diags = .ok diags1) (hne : diags1 ≠ diags) :
    ∃ fnname, formatFunctionName formatNode fd = .ok fnname ∧
      diags1 = diags ++
        [{ Pos := fd.Pos, Message := fnname ++ " opens session but does not close it" }] := by
  cases hn : formatFunctionName formatNode fd with
  | error e => simp [checkFuncDecl, hn] at h
  | ok fnname =>
    cases hw : WalkBody walker.Visit (walker.init fname fnname) fd.Body with
    | error e =>
      unfold walker.init at hw
      simp [checkFuncDecl, hn, hw] at h
    | ok w =>
      rw [checkFuncDecl_of_walk formatNode fname fd diags fnname w hn hw] at h
      split at h
      · simp only [Except.ok.injEq] at h
        exact ⟨fnname, rfl, h.symm⟩
      · simp only [Except.ok.injEq] at h
        exact absurd h.symm hne

/-- C8 (amended), at `exBar`. -/
theorem checkFuncDecl_diagnostic_witness :
    ∃ fnname, formatFunctionName renderType exBar = .ok fnname ∧
      [{ Pos := 20, Message := "Bar opens session but does not close it" }] = [] ++
        [({ Pos := exBar.Pos, Message := fnname ++ " opens session but does not close it" } :
          Diagnostic)] :=
  checkFuncDecl_diagnostic renderType "bar.go" exBar []
    [{ Pos := 20, Message := "Bar opens session but does not close it" }] (by rfl) (by decide)

/-- C8, as stated, fails at `exBar`: the message of the diagnostic has no
full stop at its end. -/
theorem checkFuncDecl_diagnostic_counterexample :
    checkFuncDecl renderType "bar.go" exBar [] =
      .ok [{ Pos := 20, Message := "Bar opens session but does not close it" }] ∧
    "Bar opens session but does not close it" ≠ "Bar opens session but does not close it." :=
  ⟨by rfl, by decide⟩

/-- C9 (the code panics): at a declaration without a body, `func Foo()`, the
walk dereferences the nil body, and the analysis of the function and of the
whole package ends in a panic instead of a verdict. The other shapes that the
claim lists panic as well: `formatFunctionName` indexes the receiver list out
of range at `func (a, b T) M()`, and `walker.Visit` indexes an empty operand
list out of range. -/
theorem checkFuncDecl_no_body_panics :
    checkFuncDecl renderType "foo.go" exNoBody [] = .error .nilPointerDereference ∧
    checkModelsSession asciiEqualFold renderType
      { PkgPath := "code.gitea.io/gitea/models", Files := [exFile "models" [.FuncDecl exNoBody]] } =
      .error .nilPointerDereference ∧
    formatFunctionName renderType exTwoRecv = .error .indexOutOfRange ∧
    formatFunctionName renderType { exTwoRecv with Recv := some (.mk []) } =
      .error .indexOutOfRange ∧
    (walker.init "f.go" "F").Visit (some (.stmt (.AssignStmt [] ":=" [ident "a"]))) =
      .error .indexOutOfRange ∧
    (walker.init "f.go" "F").Visit (some (.stmt (.AssignStmt [ident "a"] ":=" []))) =
      .error .indexOutOfRange :=
  ⟨by rfl, by rfl, by rfl, by rfl, by rfl, by rfl⟩

theorem checkAll_append (formatNode : Expr → String) (l r : List (String × FuncDecl))
    (diags : List Diagnostic) :
    checkAll formatNode (l ++ r) diags =
      match checkAll formatNode l diags with
      | .error e => .error e
      | .ok diags1 => checkAll formatNode r diags1 := by
  induction l generalizing diags with
  | nil => rfl
  | cons p l ih =>
    obtain ⟨fname, fd⟩ := p
    simp only [List.cons_append, checkAll]
    cases checkFuncDecl formatNode fname fd diags with
    | error e => rfl
    | ok d1 => exact ih d1

theorem checkDecls_eq (formatNode : Expr → String) (fname : String) (decls : List Decl)
    (diags : List Diagnostic) :
    checkDecls formatNode fname decls diags =
      checkAll formatNode (decls.filterMap (fun decl =>
        match decl with
        | .FuncDecl fnDecl => some (fname, fnDecl)
        | _ => none)) diags := by
  induction decls generalizing diags with
  | nil => rfl
  | cons d ds ih =>
    cases d with
    | FuncDecl fd =>
      simp only [checkDecls, List.filterMap_cons, checkAll]
      cases checkFuncDecl formatNode fname fd diags with
      | error e => rfl
      | ok d1 => exact ih d1
    | BadDecl => simp only [checkDecls, List.filterMap_cons]; exact ih diags
    | GenDecl g => simp only [checkDecls, List.filterMap_cons]; exact ih diags

theorem checkFiles_eq (formatNode : Expr → String) (files : List File) (diags : List Diagnostic) :
    checkFiles formatNode files diags =
      checkAll formatNode (files.flatMap (fun file => file.Decls.filterMap (fun decl =>
        match decl with
        | .FuncDecl fnDecl => some (file.Name.Name, fnDecl)
        | _ => none))) diags := by
  induction files generalizing diags with
  | nil => rfl
  | cons f fs ih =>
    simp only [checkFiles, List.flatMap_cons, checkAll_append, checkDecls_eq]
    cases checkAll formatNode _ diags with
    | error e => rfl
    | ok d1 => exact ih d1

/-- The gate and the loops of `checkModelsSession`. When the package path is
not equal to `code.gitea.io/gitea/models` under `strings.EqualFold` it
reports nothing and returns without error, whatever the files; when it is
equal, the loops hand the function declarations of the files to
`checkFuncDecl`, in order, until one of the analyses panics. -/
theorem checkModelsSession_target (EqualFold : String → String → Bool)
    (formatNode : Expr → String) (pass : Pass) :
    (EqualFold pass.PkgPath "code.gitea.io/gitea/models" = false →
      checkModelsSession EqualFold formatNode pass = .ok []) ∧
    (EqualFold pass.PkgPath "code.gitea.io/gitea/models" = true →
      checkModelsSession EqualFold formatNode pass = checkAll formatNode pass.funcDecls []) := by
  constructor
  · intro h
    simp [checkModelsSession, h]
  · intro h
    simp only [checkModelsSession, h, Bool.not_true, Bool.false_eq_true, if_false]
    exact checkFiles_eq formatNode pass.Files []

/-- The gate of `checkModelsSession` at a pass over another package and at a
pass over the target package, its path written with capitals. -/
theorem checkModelsSession_target_witness :
    checkModelsSession asciiEqualFold renderType exOtherPass = .ok [] ∧
    checkModelsSession asciiEqualFold renderType exModelsPass =
      checkAll renderType exModelsPass.funcDecls [] :=
  ⟨(checkModelsSession_target asciiEqualFold renderType exOtherPass).1 (by decide),
    (checkModelsSession_target asciiEqualFold renderType exModelsPass).2 (by decide)⟩


/-- C11: `formatFunctionName` returns the bare name of a function without a
receiver, and for a method the rendered type of the receiver, a leading `*`
stripped, then `.` and the name. -/
theorem formatFunctionName_spec (formatNode : Expr → String) (fd : FuncDecl) :
    (fd.Recv = none → formatFunctionName formatNode fd = .ok fd.Name.Name) ∧
    (∀ (names : List Ident) (t : Expr) (tag : Option BasicLit),
      fd.Recv = some (.mk [.mk names (some t) tag]) → names.length ≤ 1 → formatNode t ≠ "" →
      formatFunctionName formatNode fd = .ok (stripStar (formatNode t) ++ "." ++ fd.Name.Name)) := by
  constructor
  · intro h
    simp [formatFunctionName, h]
  · intro names t tag h hlen hne
    have hn : (FieldList.mk [Field.mk names (some t) tag]).NumFields = 1 := by
      simp only [FieldList.NumFields, FieldList.list, List.foldl_cons, List.foldl_nil, Field.Names]
      split <;> omega
    simp only [formatFunctionName, h, hn, FieldList.list, Field.Typ]
    have hd : (formatNode t).data ≠ [] := by
      intro hd
      apply hne
      cases hf : formatNode t with
      | mk l => rw [hf] at hd; simp at hd; subst hd; rfl
    unfold stripStar
    cases hdata : (formatNode t).data with
    | nil => exact absurd hdata hd
    | cons c rest =>
      by_cases hc : c = '*'
      · subst hc; simp [hdata]
      · simp [hdata, hc]

/-- C11, at `func (r *Repo) Load()`, `func (r Repo) Load()` and `func Bar()`. -/
theorem formatFunctionName_spec_witness :
    formatFunctionName renderType exLoad = .ok "Repo.Load" ∧
    formatFunctionName renderType exLoadValue = .ok "Repo.Load" ∧
    formatFunctionName renderType exBar = .ok "Bar" :=
  ⟨(formatFunctionName_spec renderType exLoad).2 [⟨"r"⟩] (.StarExpr (ident "Repo")) none rfl
      (by decide) (by decide),
    (formatFunctionName_spec renderType exLoadValue).2 [⟨"r"⟩] (ident "Repo") none rfl
      (by decide) (by decide),
    (formatFunctionName_spec renderType exBar).1 rfl⟩

/-- C12: `isCloseSessionExpr e n` holds exactly when `n` is not empty and `e`
is the selector `n.Close` or a call of it; it fails for every `e` when `n` is
empty, and for a call of a call such as `n.Close()()`. -/
theorem isCloseSessionExpr_iff (e : Expr) (n : String) :
    (isCloseSessionExpr e n = true ↔
      n ≠ "" ∧ (e = selectorOf n "Close" ∨ ∃ args, e = .CallExpr (.mk (selectorOf n "Close") args))) ∧
    isCloseSessionExpr e "" = false ∧
    (∀ args1 args2, isCloseSessionExpr
      (.CallExpr (.mk (.CallExpr (.mk (selectorOf n "Close") args1)) args2)) n = false) := by
  refine ⟨?_, by simp [isCloseSessionExpr], ?_⟩
  · by_cases hn : n = ""
    · subst hn; simp [isCloseSessionExpr]
    · have hsel : ∀ (x : Expr) (sel : Ident),
          isCloseSessionExpr (.SelectorExpr x sel) n = true ↔
            Expr.SelectorExpr x sel = selectorOf n "Close" := by
        intro x sel
        cases x <;> simp [isCloseSessionExpr, hn, selectorOf]
        rename_i id
        cases id; cases sel
        simp
      have hcall : ∀ (f : Expr) (args : List Expr),
          isCloseSessionExpr (.CallExpr (.mk f args)) n = true ↔ f = selectorOf n "Close" := by
        intro f args
        cases f <;> simp [isCloseSessionExpr, hn, selectorOf, CallExpr.Fun]
        rename_i x sel
        cases x <;> simp
        rename_i id
        cases id; cases sel
        simp
      cases e with
      | SelectorExpr x sel =>
        rw [hsel]
        simp [hn, selectorOf]
      | CallExpr c =>
        cases c with
        | mk f args =>
          rw [hcall]
          simp [hn, selectorOf]
      | _ => simp [isCloseSessionExpr, hn, selectorOf]
  · intro args1 args2
    simp [isCloseSessionExpr, CallExpr.Fun]


/-- C13: `isNewSession e` holds exactly when `e` is a call of the selector
`x.NewSession`; the arguments of the call play no part. -/
theorem isNewSession_iff (e : Expr) :
    (isNewSession e = true ↔ ∃ args, e = .CallExpr (.mk (selectorOf "x" "NewSession") args)) ∧
    (∀ f args1 args2, isNewSession (.CallExpr (.mk f args1)) = isNewSession (.CallExpr (.mk f args2))) := by
  refine ⟨?_, fun f args1 args2 => rfl⟩
  cases e with
  | CallExpr c =>
    cases c with
    | mk f args =>
      cases f <;> simp [isNewSession, selectorOf, CallExpr.Fun]
      rename_i x sel
      cases x <;> simp
      rename_i id
      cases id; cases sel
      simp
  | _ => simp [isNewSession]

theorem returns_iff (v : String) (results : List Expr) :
    Node.returns v (.stmt (.ReturnStmt results)) = true ↔ Expr.Ident ⟨v⟩ ∈ results := by
  simp only [Node.returns, List.any_eq_true]
  constructor
  · rintro ⟨e, he, hi⟩
    cases e <;> simp [isIdent] at hi
    rename_i id
    cases id
    simp at hi
    subst hi
    exact he
  · intro h
    exact ⟨_, h, by simp [isIdent]⟩

/-- C15: at a return statement `walker.Visit` goes on into the results and
changes `closesSession` only: the session is marked closed afterwards exactly
when it was before or a session is tracked (the name is not empty) and a
result is the bare identifier of that name. Results that are no identifiers,
such as `v.Foo()` or `&v`, change nothing, nor does a return while no session
is tracked. -/
theorem Visit_return (w : walker) (results : List Expr) :
    ∃ w1, w.Visit (some (.stmt (.ReturnStmt results))) = .ok (w1, true) ∧
      w1.fname = w.fname ∧ w1.fnname = w.fnname ∧
      w1.createsSession = w.createsSession ∧ w1.sessionName = w.sessionName ∧
      (w1.closesSession = true ↔
        w.closesSession = true ∨ (w.sessionName ≠ "" ∧ Expr.Ident ⟨w.sessionName⟩ ∈ results)) ∧
      (w.sessionName = "" → w1 = w) ∧
      ((∀ e ∈ results, ∀ id, e ≠ .Ident id) → w1 = w) := by
  refine ⟨_, rfl, ?_⟩
  rw [foldl_visitResult]
  refine ⟨rfl, rfl, rfl, rfl, ?_, ?_, ?_⟩
  · simp only [Bool.or_eq_true, Bool.and_eq_true, decide_eq_true_eq, returns_iff]
  · intro h
    exact (walker_eq_self w _ (by simp [h])).symm
  · intro h
    refine (walker_eq_self w _ ?_).symm
    have : Node.returns w.sessionName (.stmt (.ReturnStmt results)) = false := by
      cases hr : Node.returns w.sessionName (.stmt (.ReturnStmt results)) with
      | false => rfl
      | true => exact absurd rfl (h _ ((returns_iff _ _).1 hr) ⟨w.sessionName⟩)
    simp [this]

/-- C14: the lifecycle only moves forward. A call of `walker.Visit` never
resets `createsSession` or `closesSession`; so once the calls of `Visit` on
the nodes of a function, in walk order, have marked the session closed, the
rest of the walk and the named-result step keep it closed and the function
gets no diagnostic. -/
theorem lifecycle_forward (formatNode : Expr → String) (fname fnname : String) (fd : FuncDecl)
    (diags : List Diagnostic) (w w1 wmid : walker) (n : Option Node) (d : Bool)
    (pre post : List Node) :
    (w.Visit n = .ok (w1, d) →
      (w.createsSession = true → w1.createsSession = true) ∧
      (w.closesSession = true → w1.closesSession = true)) ∧
    (fd.wellFormed formatNode = true → formatFunctionName formatNode fd = .ok fnname →
      fd.walkOrder = pre ++ post →
      visitAll walker.Visit (walker.init fname fnname) pre = .ok wmid →
      wmid.closesSession = true →
      checkFuncDecl formatNode fname fd diags = .ok diags) := by
  constructor
  · intro h
    cases n with
    | none =>
      rw [Visit_nil] at h
      simp only [Except.ok.injEq, Prod.mk.injEq] at h
      rw [← h.1]
      exact ⟨id, id⟩
    | some m => exact ⟨fun hc => Visit_creates w w1 m d hc h, fun hc => Visit_closed w w1 m d hc h⟩
  · intro hwf hn horder hpre hmid
    obtain ⟨wf, hw, hor⟩ := walk_wellFormed formatNode fd hwf (walker.init fname fnname)
    have hcl : wf.closesSession = true := by
      rcases hor with h | h
      · exact h
      · rw [horder] at h
        obtain ⟨w2, h2, h3⟩ := visitAll_append_ok h
        rw [hpre] at h2
        cases h2
        exact visitAll_inv walker.Visit (fun w => w.closesSession = true) post
          (fun m _ s s1 d hs hvis => Visit_closed s s1 m d hs hvis) wmid wf hmid h3
    rw [checkFuncDecl_of_walk formatNode fname fd diags fnname wf hn hw, if_neg]
    rintro ⟨_, h, _⟩
    rw [hcl] at h
    cases h

/-- C14, at a closed walker that meets another session-creating assignment,
and at `exFoo`, closed after the first three nodes of its walk. -/
theorem lifecycle_forward_witness :
    (((exWalker "sess" true).createsSession = true → (exWalker "b" true).createsSession = true) ∧
      ((exWalker "sess" true).closesSession = true → (exWalker "b" true).closesSession = true)) ∧
    checkFuncDecl renderType "foo.go" exFoo [] = .ok [] :=
  ⟨(lifecycle_forward renderType "foo.go" "Foo" exFoo [] (exWalker "sess" true)
      (exWalker "b" true) (exWalker "sess" true) (some (.stmt (sessionAssign "b" ":=" []))) false
      (exFoo.walkOrder.take 3) (exFoo.walkOrder.drop 3)).1 (by rfl),
    (lifecycle_forward renderType "foo.go" "Foo" exFoo [] (exWalker "sess" true)
      (exWalker "b" true) (exWalker "sess" true) (some (.stmt (sessionAssign "b" ":=" []))) false
      (exFoo.walkOrder.take 3) (exFoo.walkOrder.drop 3)).2 (by decide) (by rfl) (by rfl) (by rfl)
      rfl⟩


theorem visitAll_total_inv {σ : Type} (visit : σ → Option Node → Except Panic (σ × Bool))
    (I : σ → Prop) (ns : List Node)
    (h : ∀ n ∈ ns, ∀ s, I s → ∃ s1 d, visit s (some n) = .ok (s1, d) ∧ I s1) :
    ∀ s, I s → ∃ s2, visitAll visit s ns = .ok s2 ∧ I s2 := by
  induction ns with
  | nil => intro s hs; exact ⟨s, rfl, hs⟩
  | cons n ns ih =>
    intro s hs
    obtain ⟨s1, d, hv, h1⟩ := h n (List.mem_cons_self n ns) s hs
    obtain ⟨s2, h2, hI2⟩ := ih (fun m hm => h m (List.mem_cons_of_mem n hm)) s1 h1
    exact ⟨s2, by rw [visitAll_cons, hv]; exact h2, hI2⟩

/-- C19: the states that the walker reaches. Started as in
`checkModelsSession` and called on any sequence of nodes (assignments with
operands on both sides, identifiers with a name), `closesSession` implies
`createsSession` and a non-empty `sessionName`, and a non-empty `sessionName`
implies `createsSession`; with no session-creating assignment in the
sequence, the session is not marked closed, whatever closes and returns the
sequence holds. -/
theorem walker_reachable (fname fnname : String) (ns : List Node)
    (hops : ∀ n ∈ ns, n.operandsOk = true) (hnames : ∀ n ∈ ns, n.tracks ≠ some "") :
    ∃ w, visitAll walker.Visit (walker.init fname fnname) ns = .ok w ∧
      (w.closesSession = true → w.createsSession = true ∧ w.sessionName ≠ "") ∧
      (w.sessionName ≠ "" → w.createsSession = true) ∧
      ((∀ n ∈ ns, n.tracks = none) → w.closesSession = false) := by
  obtain ⟨w, hw, h1, h2⟩ := visitAll_total_inv walker.Visit
    (fun w => (w.closesSession = true → w.createsSession = true ∧ w.sessionName ≠ "") ∧
      (w.sessionName ≠ "" → w.createsSession = true)) ns
    (by
      intro n hn s hs
      obtain ⟨⟨s1, d⟩, hv⟩ := Visit_total s n (hops n hn)
      refine ⟨s1, d, hv, ?_⟩
      obtain ⟨hs1, hs2⟩ := hs
      rcases Visit_cases s s1 n d hv with ⟨u, hu, hw1, _⟩ | ⟨_, hc, hw1, _⟩ | ⟨_, _, hw1⟩
      · rw [hw1]
        have hune : u ≠ "" := by
          intro h
          rw [h] at hu
          exact hnames n hn hu
        exact ⟨fun _ => ⟨rfl, hune⟩, fun _ => rfl⟩
      · rw [hw1]
        have hne : s.sessionName ≠ "" := by
          intro h
          rw [h, closes_empty, assignsClose_empty] at hc
          simp at hc
        exact ⟨fun _ => ⟨hs2 hne, hne⟩, hs2⟩
      · rw [hw1]
        refine ⟨?_, hs2⟩
        intro hcl
        simp only [Bool.or_eq_true, Bool.and_eq_true, decide_eq_true_eq] at hcl
        rcases hcl with h | h
        · exact hs1 h
        · exact ⟨hs2 h.1, h.1⟩)
    (walker.init fname fnname) ⟨(by intro h; cases h), (by intro h; exact absurd rfl h)⟩
  refine ⟨w, hw, h1, h2, ?_⟩
  intro hnone
  have := visitAll_inv walker.Visit (fun w => w.sessionName = "" ∧ w.closesSession = false) ns
    (by
      intro n hn s s1 d hs hv
      obtain ⟨hs1, hs2⟩ := hs
      rcases Visit_cases s s1 n d hv with ⟨u, hu, _, _⟩ | ⟨_, hc, _, _⟩ | ⟨_, _, hw1⟩
      · rw [hnone n hn] at hu; cases hu
      · rw [hs1, closes_empty, assignsClose_empty] at hc
        simp at hc
      · rw [hw1]
        exact ⟨hs1, by simp [hs1, hs2]⟩)
    (walker.init fname fnname) w ⟨rfl, rfl⟩ hw
  exact this.2

/-- C19, at the nodes of `exEarly` in walk order (a deferred close, then the
session-creating assignment) and at those of `exPlain` (a close and a return,
no session). -/
theorem walker_reachable_witness :
    (∃ w, visitAll walker.Visit (walker.init "early.go" "Early") exEarly.walkOrder = .ok w ∧
      (w.closesSession = true → w.createsSession = true ∧ w.sessionName ≠ "") ∧
      (w.sessionName ≠ "" → w.createsSession = true) ∧
      ((∀ n ∈ exEarly.walkOrder, n.tracks = none) → w.closesSession = false)) ∧
    (∃ w, visitAll walker.Visit (walker.init "plain.go" "Plain") exPlain.walkOrder = .ok w ∧
      (w.closesSession = true → w.createsSession = true ∧ w.sessionName ≠ "") ∧
      (w.sessionName ≠ "" → w.createsSession = true) ∧
      ((∀ n ∈ exPlain.walkOrder, n.tracks = none) → w.closesSession = false)) :=
  ⟨walker_reachable "early.go" "Early" exEarly.walkOrder (by decide) (by decide),
    walker_reachable "plain.go" "Plain" exPlain.walkOrder (by decide) (by decide)⟩

theorem tracks_none_of_multi (n : Node) (h : n.sessionOnlyInMultiAssign = true) :
    n.tracks = none := by
  unfold Node.tracks
  split
  · rename_i name ls tok r0 rs
    split
    · rename_i hc
      exfalso
      obtain ⟨hlen, hnew⟩ := hc
      simp only [Node.sessionOnlyInMultiAssign, List.any_cons, hnew, Bool.true_or, Bool.not_true,
        Bool.false_or, Bool.and_eq_true, decide_eq_true_eq, List.length_cons] at h
      omega
    · rfl
  · rfl

/-- C18: in a function declaration in which every assignment with a call
`x.NewSession(...)` among its right-hand operands has at least two operands on
each side (as in `a, b := x.NewSession(), 1`), no session is tracked: at the
end of the walk `createsSession` is false and `sessionName` empty, and the
function gets no diagnostic, whatever else its body holds. -/
theorem checkFuncDecl_multi_assign (formatNode : Expr → String) (fname : String) (fd : FuncDecl)
    (diags : List Diagnostic)
    (hwf : fd.wellFormed formatNode = true)
    (hmulti : ∀ n ∈ fd.bodyNodes, n.sessionOnlyInMultiAssign = true) :
    ∃ fnname w, formatFunctionName formatNode fd = .ok fnname ∧
      WalkBody walker.Visit (walker.init fname fnname) fd.Body = .ok w ∧
      w.createsSession = false ∧ w.sessionName = "" ∧
      checkFuncDecl formatNode fname fd diags = .ok diags := by
  obtain ⟨fnname, hn⟩ := formatFunctionName_ok formatNode fd (wellFormed_recv formatNode fd hwf)
  obtain ⟨w, hw, hcr, hnm⟩ := walk_inv_wellFormed formatNode fd hwf
    (fun w => w.createsSession = false ∧ w.sessionName = "")
    (by
      intro m hm w w1 d hI hvis
      have hnone := tracks_none_of_multi m (hmulti m (preorder_subset _ _ m hm))
      rcases Visit_cases w w1 m d hvis with ⟨u, hu, _, _⟩ | ⟨_, _, hw1, _⟩ | ⟨_, _, hw1⟩
      · rw [hnone] at hu; cases hu
      · rw [hw1]; exact hI
      · rw [hw1]; exact hI)
    (walker.init fname fnname) ⟨rfl, rfl⟩
  refine ⟨fnname, w, hn, hw, hcr, hnm, ?_⟩
  rw [checkFuncDecl_of_walk formatNode fname fd diags fnname w hn hw, if_neg]
  rintro ⟨h, _, _⟩
  rw [hcr] at h
  cases h

/-- C18, at `exQux`. -/
theorem checkFuncDecl_multi_assign_witness :
    ∃ fnname w, formatFunctionName renderType exQux = .ok fnname ∧
      WalkBody walker.Visit (walker.init "qux.go" fnname) exQux.Body = .ok w ∧
      w.createsSession = false ∧ w.sessionName = "" ∧
      checkFuncDecl renderType "qux.go" exQux [] = .ok [] :=
  checkFuncDecl_multi_assign renderType "qux.go" exQux [] (by decide) (by decide)


theorem inspectStatusCode_eq (reports : List NodeDiagnostic) (n : Node) :
    inspectStatusCode reports (some n) =
      .ok (if n.isLiteralStatusCall = true then (reports ++ [statusDiagnostic n], false)
        else (reports, true)) := by
  cases n with
  | expr e =>
    cases e with
    | CallExpr c =>
      cases c with
      | mk f args =>
        cases f with
        | SelectorExpr x sel =>
          cases x with
          | Ident recv =>
            cases args with
            | nil =>
              simp only [inspectStatusCode, CallExpr.Args, CallExpr.Fun, Node.isLiteralStatusCall]
              simp
            | cons a as =>
              cases a <;>
                simp only [inspectStatusCode, CallExpr.Args, CallExpr.Fun,
                  Node.isLiteralStatusCall, isPkgDot, isIdent, List.getElem?_cons_zero,
                  statusDiagnostic] <;>
                by_cases h1 : recv.Name = "ctx" <;> by_cases h2 : sel.Name = "Status" <;>
                by_cases h3 : sel.Name = "JSON" <;> simp [h1, h2, h3]
          | _ =>
            simp [inspectStatusCode, CallExpr.Fun, Node.isLiteralStatusCall, isPkgDot, isIdent]
        | _ => simp [inspectStatusCode, CallExpr.Fun, Node.isLiteralStatusCall, isPkgDot]
    | _ => simp [inspectStatusCode, Node.isLiteralStatusCall]
  | _ => simp [inspectStatusCode, Node.isLiteralStatusCall]

theorem visitAll_inspectStatusCode (ns : List Node) (reports : List NodeDiagnostic) :
    visitAll inspectStatusCode reports ns =
      .ok (reports ++ (ns.filter Node.isLiteralStatusCall).map statusDiagnostic) := by
  induction ns generalizing reports with
  | nil => simp [visitAll_nil]
  | cons n ns ih =>
    rw [visitAll_cons, inspectStatusCode_eq]
    cases h : n.isLiteralStatusCall with
    | true => simp [ih, h]
    | false => simp [ih, h]

/-- The inspection of a file by `run`: the calls of the shape that are met
outside the callee and the arguments of another such call are reported. -/
theorem Walk_inspectStatusCode (n : Node) (reports : List NodeDiagnostic) :
    Walk inspectStatusCode reports n =
      .ok (reports ++
        ((preorder Node.isLiteralStatusCall n).filter Node.isLiteralStatusCall).map
          statusDiagnostic) := by
  obtain ⟨s1, hw, hor⟩ := Walk_fold inspectStatusCode Node.isLiteralStatusCall (fun _ => False)
    (fun s => ⟨true, rfl⟩)
    (by
      intro s m s1 d hp h
      rw [inspectStatusCode_eq, hp] at h
      simp only [if_true, Except.ok.injEq, Prod.mk.injEq] at h
      exact h.2.symm)
    (by
      intro s m s1 h
      rw [inspectStatusCode_eq] at h
      cases hp : m.isLiteralStatusCall with
      | true => exact Or.inl rfl
      | false => simp [hp] at h)
    (fun s m s1 d hd _ => hd)
    n reports
    (fun m _ s => ⟨_, inspectStatusCode_eq s m⟩)
  rcases hor with h | h
  · exact absurd h id
  · rw [hw, ← h, visitAll_inspectStatusCode]

theorem runFiles_eq (files : List File) (reports : List NodeDiagnostic) :
    runFiles files reports =
      .ok (reports ++ files.flatMap (fun file =>
        ((preorder Node.isLiteralStatusCall (.file file)).filter Node.isLiteralStatusCall).map
          statusDiagnostic)) := by
  induction files generalizing reports with
  | nil => simp [runFiles]
  | cons f fs ih =>
    simp only [runFiles, Walk_inspectStatusCode, ih, List.flatMap_cons, List.append_assoc]

/-- C16 (amended): the analyzer `HttpStatusCode` reports, in every file, the
calls of the shape `ctx.Status(<literal>, ...)` or `ctx.JSON(<literal>, ...)`
that are met outside the callee and the arguments of another reported call,
in source order, and reports nothing else. -/
theorem run_reports (pass : Pass) :
    run pass =
      .ok (pass.Files.flatMap (fun file =>
        ((preorder Node.isLiteralStatusCall (.file file)).filter Node.isLiteralStatusCall).map
          statusDiagnostic)) := by
  simp [run, runFiles_eq]

/-- C16, as stated, fails at `ctx.JSON(200, ctx.Status(404))`: both calls
have the shape and lie in the file; the outer one is reported, the inner one,
among its arguments, is not. -/
theorem run_reports_counterexample :
    ((subnodes (.file exStatusFile)).filter Node.isLiteralStatusCall).length = 2 ∧
    Node.isLiteralStatusCall (.expr exStatusInner) = true ∧
    run exStatusPass = .ok [statusDiagnostic (.expr exStatusOuter)] :=
  ⟨by decide, by decide, by rfl⟩


theorem checkImport_eq (denied : List String) (file : File) (im : BasicLit) (l : List String)
    (reports : List ImportDiagnostic) :
    checkImport denied file im l reports =
      reports ++ (if importAllowed file (importPath im) = true then []
        else (l.filter (fun d => d = importPath im)).map (importDiagnostic im)) := by
  induction l generalizing reports with
  | nil => simp [checkImport]
  | cons d l ih =>
    simp only [checkImport]
    by_cases hd : d = trimQuoteSuffix (trimQuotePrefix im.Value)
    · cases ha : importAllowed file (trimQuoteSuffix (trimQuotePrefix im.Value)) with
      | true =>
        have ha2 : importAllowed file (importPath im) = true := ha
        simp [hd, ih, ha2]
      | false =>
        have ha2 : importAllowed file (importPath im) = false := ha
        simp [hd, ih, ha2, ha, importPath, importDiagnostic]
    · have hd2 : ¬ d = importPath im := hd
      simp [hd, ih, hd2]

theorem checkImports_eq (denied : List String) (file : File) (ims : List BasicLit)
    (reports : List ImportDiagnostic) :
    checkImports denied file ims reports =
      reports ++ ims.flatMap (fun im => checkImport denied file im denied []) := by
  induction ims generalizing reports with
  | nil => simp [checkImports]
  | cons im ims ih =>
    simp only [checkImports, ih, List.flatMap_cons]
    rw [checkImport_eq denied file im denied reports, checkImport_eq denied file im denied []]
    simp

theorem foldl_checkImports (denied : List String) (files : List File)
    (reports : List ImportDiagnostic) :
    files.foldl (fun reports file => checkImports denied file file.Imports reports) reports =
      reports ++ files.flatMap (fun file => checkImports denied file file.Imports []) := by
  induction files generalizing reports with
  | nil => simp
  | cons f fs ih =>
    simp only [List.foldl_cons, ih, List.flatMap_cons]
    rw [checkImports_eq denied f f.Imports reports, checkImports_eq denied f f.Imports []]
    simp

theorem mem_checkImports (denied : List String) (file : File) (r : ImportDiagnostic) :
    r ∈ checkImports denied file file.Imports [] ↔
      ∃ im ∈ file.Imports, importAllowed file (importPath im) = false ∧
        importPath im ∈ denied ∧ r = importDiagnostic im (importPath im) := by
  rw [checkImports_eq]
  simp only [List.nil_append, List.mem_flatMap]
  constructor
  · rintro ⟨im, him, hr⟩
    rw [checkImport_eq] at hr
    cases ha : importAllowed file (importPath im) with
    | true => simp [ha] at hr
    | false =>
      simp only [ha, Bool.false_eq_true, if_false, List.nil_append, List.mem_map,
        List.mem_filter, decide_eq_true_eq] at hr
      obtain ⟨d, ⟨hd1, hd2⟩, hd3⟩ := hr
      subst hd2
      exact ⟨im, him, ha, hd1, hd3.symm⟩
  · rintro ⟨im, him, ha, hd, hr⟩
    refine ⟨im, him, ?_⟩
    rw [checkImport_eq]
    simp only [ha, Bool.false_eq_true, if_false, List.nil_append, List.mem_map, List.mem_filter,
      decide_eq_true_eq]
    exact ⟨importPath im, ⟨hd, rfl⟩, hr.symm⟩

theorem containsChars_infix (sub : List Char) :
    ∀ (s : List Char), containsChars sub s = true → ∃ a b, s = a ++ sub ++ b := by
  intro s
  induction s with
  | nil =>
    intro h
    simp only [containsChars, List.isPrefixOf_iff_prefix] at h
    obtain ⟨t, ht⟩ := h
    exact ⟨[], t, by simp [ht]⟩
  | cons c rest ih =>
    intro h
    simp only [containsChars, Bool.or_eq_true, List.isPrefixOf_iff_prefix] at h
    rcases h with h | h
    · obtain ⟨t, ht⟩ := h
      exact ⟨[], t, by simp [ht]⟩
    · obtain ⟨a, b, hab⟩ := ih h
      exact ⟨c :: a, b, by simp [hab]⟩

theorem split_first {α : Type} (c : α) :
    ∀ (l1 l2 r1 r2 : List α), c ∉ l1 → c ∉ l2 → l1 ++ c :: r1 = l2 ++ c :: r2 →
      l1 = l2 ∧ r1 = r2 := by
  intro l1
  induction l1 with
  | nil =>
    intro l2 r1 r2 _ h2 h
    cases l2 with
    | nil => simpa using h
    | cons x l2 =>
      simp only [List.nil_append, List.cons_append, List.cons.injEq] at h
      exact absurd (h.1 ▸ List.mem_cons_self _ _) h2
  | cons x l1 ih =>
    intro l2 r1 r2 h1 h2 h
    cases l2 with
    | nil =>
      simp only [List.nil_append, List.cons_append, List.cons.injEq] at h
      exact absurd (h.1 ▸ List.mem_cons_self _ _) h1
    | cons y l2 =>
      simp only [List.cons_append, List.cons.injEq] at h
      obtain ⟨hl, hr⟩ := ih l2 r1 r2 (fun hm => h1 (List.mem_cons_of_mem _ hm))
        (fun hm => h2 (List.mem_cons_of_mem _ hm)) h.2
      exact ⟨by rw [h.1, hl], hr⟩

theorem allowText_data (p : String) :
    (allowText p).data =
      ['A', 'l', 'l', 'o', 'w', ' '] ++ '"' :: (p.data ++ '"' :: [' ', 'i', 'm', 'p', 'o', 'r', 't']) := by
  simp [allowText, String.data_append]

/-- A text that holds `Allow "p" import` and no double quote besides the two
of it (in particular none in the path `p`) contains the text
`Allow "q" import` of no other path `q`. -/
theorem allowText_contains (p q x y : String) (hp : '"' ∉ p.data) (hx : '"' ∉ x.data)
    (hy : '"' ∉ y.data)
    (h : stringContains (x ++ allowText p ++ y) (allowText q) = true) : q = p := by
  obtain ⟨a, b, hab⟩ := containsChars_infix _ _ h
  rw [String.data_append, String.data_append, allowText_data, allowText_data] at hab
  have hcount := congrArg (List.count '"') hab
  simp only [List.count_append, List.count_cons, List.count_nil] at hcount
  simp only [List.count_eq_zero.2 hp, List.count_eq_zero.2 hx, List.count_eq_zero.2 hy] at hcount
  norm_num at hcount
  have ha : '"' ∉ a := List.count_eq_zero.1 (by omega)
  have hq : '"' ∉ q.data := List.count_eq_zero.1 (by omega)
  have hab2 : (x.data ++ ['A', 'l', 'l', 'o', 'w', ' ']) ++
        '"' :: (p.data ++ '"' :: ([' ', 'i', 'm', 'p', 'o', 'r', 't'] ++ y.data)) =
      (a ++ ['A', 'l', 'l', 'o', 'w', ' ']) ++
        '"' :: (q.data ++ '"' :: ([' ', 'i', 'm', 'p', 'o', 'r', 't'] ++ b)) := by
    have := hab
    simp only [List.append_assoc, List.cons_append, List.nil_append] at this ⊢
    exact this
  have hnot : ∀ (l : List Char), '"' ∉ l → '"' ∉ l ++ ['A', 'l', 'l', 'o', 'w', ' '] := by
    intro l hl hm
    rcases List.mem_append.1 hm with hm | hm
    · exact hl hm
    · revert hm; decide
  obtain ⟨_, h2⟩ := split_first '"' _ _ _ _ (hnot _ hx) (hnot _ ha) hab2
  obtain ⟨h3, _⟩ := split_first '"' _ _ _ _ hp hq h2
  cases p; cases q
  simp only at h3
  rw [h3]

theorem importAllowed_eq_false (file : File) (val : String) :
    importAllowed file val = false ↔
      ∀ c ∈ file.Comments, stringContains c.Text (allowText val) = false := by
  simp [importAllowed, List.any_eq_false]

/-- C17: for every deny list, `runDenylistImports` reports, file by file, the
imports whose path, the surrounding double quotes removed, is an entry of the
deny list, unless a comment of the file contains the text
`Allow "<that path>" import`, and nothing else; a comment that holds the
exemption of one path, and no double quote besides, contains the exemption
of no other path. -/
theorem runDenylistImportsWith_spec (denied : List String) (pass : Pass) :
    runDenylistImportsWith denied pass =
      .ok (pass.Files.flatMap (fun file => checkImports denied file file.Imports [])) ∧
    (∀ (file : File) (im : BasicLit), im ∈ file.Imports →
      (importDiagnostic im (importPath im) ∈ checkImports denied file file.Imports [] ↔
        importPath im ∈ denied ∧
          ∀ c ∈ file.Comments, stringContains c.Text (allowText (importPath im)) = false)) ∧
    (∀ (file : File) (r : ImportDiagnostic), r ∈ checkImports denied file file.Imports [] →
      ∃ im ∈ file.Imports, r = importDiagnostic im (importPath im)) ∧
    (∀ (c : CommentGroup) (p q x y : String), '"' ∉ p.data → '"' ∉ x.data → '"' ∉ y.data →
      c.Text = x ++ allowText p ++ y → stringContains c.Text (allowText q) = true → q = p) := by
  refine ⟨?_, ?_, ?_, ?_⟩
  · simp [runDenylistImportsWith, foldl_checkImports]
  · intro file im him
    rw [mem_checkImports]
    constructor
    · rintro ⟨im2, _, ha, hd, hr⟩
      have : im = im2 := congrArg ImportDiagnostic.Path hr
      subst this
      exact ⟨hd, (importAllowed_eq_false file _).1 ha⟩
    · rintro ⟨hd, ha⟩
      exact ⟨im, him, (importAllowed_eq_false file _).2 ha, hd, rfl⟩
  · intro file r hr
    obtain ⟨im, him, _, _, h⟩ := (mem_checkImports denied file r).1 hr
    exact ⟨im, him, h⟩
  · intro c p q x y hp hx hy hc h
    rw [hc] at h
    exact allowText_contains p q x y hp hx hy h

/-- C17, at `exImportFile` with the deny list `io/ioutil`, `encoding/json`: the
comment `Allow "io/ioutil" import` exempts the first import and not the
second. -/
theorem runDenylistImportsWith_spec_witness :
    runDenylistImportsWith ["io/ioutil", "encoding/json"] exImportPass =
      .ok [importDiagnostic ⟨"STRING", "\"encoding/json\""⟩ "encoding/json"] ∧
    importDiagnostic ⟨"STRING", "\"encoding/json\""⟩ "encoding/json" ∈
      checkImports ["io/ioutil", "encoding/json"] exImportFile exImportFile.Imports [] :=
  ⟨(runDenylistImportsWith_spec ["io/ioutil", "encoding/json"] exImportPass).1,
    ((runDenylistImportsWith_spec ["io/ioutil", "encoding/json"] exImportPass).2.1 exImportFile
      ⟨"STRING", "\"encoding/json\""⟩ (by decide)).2 ⟨by decide, by decide⟩⟩

/-- C20: with the deny list as shipped, the empty list, `runDenylistImports`
reports nothing and returns without error, whatever the files. -/
theorem runDenylistImports_shipped (pass : Pass) : runDenylistImports pass = .ok [] := by
  simp only [runDenylistImports, runDenylistImportsWith, deniedImports, foldl_checkImports,
    List.nil_append]
  congr 1
  apply List.flatMap_eq_nil_iff.2
  intro file _
  rw [checkImports_eq]
  simp [checkImport]

/-- C10 (the code panics): in a pass over the target package whose file
declares `func Foo()` without a body and then the leaking `func Bar()`, the
analysis of `Foo` panics (the defect of C9) and the run ends there: `Bar`,
which is reported when the file holds it alone, is never analysed. -/
theorem checkModelsSession_panic_skips :
    asciiEqualFold exPanicPass.PkgPath "code.gitea.io/gitea/models" = true ∧
    exPanicPass.funcDecls = [("models", exNoBody), ("models", exBar)] ∧
    checkModelsSession asciiEqualFold renderType exLeakPass =
      .ok [{ Pos := 20, Message := "Bar opens session but does not close it" }] ∧
    checkModelsSession asciiEqualFold renderType exPanicPass = .error .nilPointerDereference :=
  ⟨by decide, by rfl, by rfl, by rfl⟩

end Govet
